import Mathlib

/-!
Verification of the schema-generator repository (schema_toolkit):
a shallow embedding of `prepare_schema.py` and `render_datetime.py`
together with proofs settling the frozen specification claims.

Conventions of the embedding:
* Python floats are modelled by `ℚ`; the only non-finite value flowing
  through the analysed code paths is missing data, modelled by `Cell.na`.
* Python dicts are association lists in insertion order; assignment is
  `dictSet` (replace in place or append), matching CPython semantics.
* Calls into pandas/numpy that the repository does not define
  (`pd.to_datetime` strategy parsing, `pd.to_numeric` string parsing,
  strftime formatting) are oracle parameters collected in `PandasOps`;
  every theorem quantifies over the oracle, and witnesses instantiate a
  concrete executable one.
-/

set_option allowUnsafeReducibility true in
attribute [semireducible] Rat.add Rat.mul Rat.sub Rat.inv

namespace SchemaGen

/-- JSON-like values, used for parsed override / target-spec / constraints
documents and for constraint rule objects. -/
inductive JTree where
  | null : JTree
  | bool (b : Bool) : JTree
  | num (q : ℚ) : JTree
  | str (s : String) : JTree
  | arr (items : List JTree) : JTree
  | obj (fields : List (String × JTree)) : JTree

/-- Python dict lookup (`d.get(k)`): first binding wins. -/
def dictGet {α : Type} (m : List (String × α)) (k : String) : Option α :=
  match m with
  | [] => none
  | (k0, v0) :: rest => if k0 = k then some v0 else dictGet rest k

/-- Python dict assignment `d[k] = v`: replace the existing binding in
place, else append at the end (insertion order preserved). -/
def dictSet {α : Type} (m : List (String × α)) (k : String) (v : α) :
    List (String × α) :=
  match m with
  | [] => [(k, v)]
  | (k0, v0) :: rest =>
      if k0 = k then (k, v) :: rest else (k0, v0) :: dictSet rest k v

/-- Python `d.pop(k, None)`: drop the binding for `k`. -/
def dictPop {α : Type} (m : List (String × α)) (k : String) :
    List (String × α) :=
  match m with
  | [] => []
  | (k0, v0) :: rest =>
      if k0 = k then dictPop rest k else (k0, v0) :: dictPop rest k

/-- Python `k in d`. -/
def dictHas {α : Type} (m : List (String × α)) (k : String) : Bool :=
  (dictGet m k).isSome

/-- `t.get(k)` on a JSON value: field lookup on objects, `None` otherwise. -/
def jGet (t : JTree) (k : String) : Option JTree :=
  match t with
  | .obj fields => dictGet fields k
  | _ => none

/-- Python truthiness of a JSON value. -/
def jTruthy : JTree → Bool
  | .null => false
  | .bool b => b
  | .num q => decide (q ≠ 0)
  | .str s => decide (s ≠ "")
  | .arr items => !items.isEmpty
  | .obj fields => !fields.isEmpty

/-- Python `str()` of a JSON value.  Containers get a placeholder
rendering; no analysed code path stringifies a container. -/
def jToPyStr : JTree → String
  | .null => "None"
  | .bool b => if b then "True" else "False"
  | .num q => toString q
  | .str s => s
  | .arr _ => "<list>"
  | .obj _ => "<dict>"

/-- Truthiness of an optional CLI string argument (absent or empty is falsy). -/
def optStrTruthy : Option String → Bool
  | none => false
  | some s => decide (s ≠ "")

/-- pandas column dtypes distinguished by the analysed code. -/
inductive PDtype where
  | bool | int64 | float64 | object | string | datetime | timedelta
  deriving Repr, DecidableEq

/-- One cell of a column.  `na` covers NaN/None/NaT; floats are `ℚ`. -/
inductive Cell where
  | na : Cell
  | b (v : Bool) : Cell
  | i (n : Int) : Cell
  | f (q : ℚ) : Cell
  | s (v : String) : Cell
  deriving Repr, DecidableEq

/-- A pandas Series: a dtype tag plus the cells. -/
structure Series where
  dtype : PDtype
  cells : List Cell
  deriving Repr, DecidableEq

/-- `pd.api.types.is_bool_dtype`. -/
def isBoolDtype (s : Series) : Bool := s.dtype = PDtype.bool

/-- `pd.api.types.is_numeric_dtype` (bool dtype counts as numeric). -/
def isNumericDtype (s : Series) : Bool :=
  s.dtype = PDtype.bool || s.dtype = PDtype.int64 || s.dtype = PDtype.float64

/-- `pd.api.types.is_integer_dtype`. -/
def isIntegerDtype (s : Series) : Bool := s.dtype = PDtype.int64

/-- `s.dtype == "object" or pd.api.types.is_string_dtype(s)` — pandas
reports object dtype as string-like as well. -/
def isStringLikeDtype (s : Series) : Bool :=
  s.dtype = PDtype.object || s.dtype = PDtype.string

/-- `pd.api.types.is_datetime64_any_dtype`. -/
def isDatetimeDtype (s : Series) : Bool := s.dtype = PDtype.datetime

/-- `pd.api.types.is_timedelta64_dtype`. -/
def isTimedeltaDtype (s : Series) : Bool := s.dtype = PDtype.timedelta

/-- `cell.isna()`. -/
def cellIsNa : Cell → Bool
  | .na => true
  | _ => false

/-- `astype("string")` on one cell: missing stays missing, other values are
stringified the way Python prints them (float printing is modelled by the
canonical `ℚ` rendering). -/
def cellAsString : Cell → Option String
  | .na => none
  | .s v => some v
  | .b v => some (if v then "True" else "False")
  | .i n => some (toString n)
  | .f q => some (toString q)

/-- External pandas behaviour the repository calls into, supplied as an
oracle so that theorems hold for every possible library behaviour. -/
structure PandasOps where
  /-- `pd.to_numeric(·, errors="coerce")` applied to one string cell. -/
  toNumericStr : String → Option ℚ
  /-- the best-scoring `pd.to_datetime` strategy of
  `_maybe_parse_datetime_like` applied to a sanitised string column:
  `none` means every strategy raised, otherwise per-cell epoch-ns values. -/
  parseDatetimeBest : List (Option String) → Option (List (Option Int))
  /-- `_guess_datetime_output_format` (its body is a sequence of pandas
  parses over a fixed pattern list). -/
  guessDatetimeFormat : List (Option String) → String
  /-- `pd.to_datetime(·, unit="ns", utc=True).strftime(fmt)` for one
  finite numeric value; `none` models NaT after coercion. -/
  strftimeNs : String → ℚ → Option String

/-- `pd.to_numeric(·, errors="coerce")` on one cell. -/
def toNumericCell (ops : PandasOps) : Cell → Option ℚ
  | .na => none
  | .b v => some (if v then 1 else 0)
  | .i n => some (n : ℚ)
  | .f q => some q
  | .s v => ops.toNumericStr v

/-- Python `str.lower()` (ASCII case folding as in `Char.toLower`),
written structurally so that the kernel can evaluate it. -/
def strLower (s : String) : String :=
  String.mk (s.toList.map Char.toLower)

/-- Python `str.strip()` (default whitespace), written structurally so
that the kernel can evaluate it. -/
def strTrim (s : String) : String :=
  String.mk
    (((s.toList.dropWhile Char.isWhitespace).reverse.dropWhile
      Char.isWhitespace).reverse)

/-- Python `str.split(sep)` for a one-character separator (empty segments
preserved), written structurally. -/
def splitOnChar (sep : Char) : List Char → List (List Char)
  | [] => [[]]
  | c :: rest =>
      let r := splitOnChar sep rest
      if c = sep then [] :: r
      else
        match r with
        | h :: t => (c :: h) :: t
        | [] => [[c]]

/-- One hex digit of the `_UUID_RE` character classes. -/
def isHexDigitChar (c : Char) : Bool :=
  c.isDigit || (decide (97 ≤ c.toNat) && decide (c.toNat ≤ 102)) ||
    (decide (65 ≤ c.toNat) && decide (c.toNat ≤ 70))

/-- Version nibble `[1-5]` of `_UUID_RE`. -/
def isUuidVersionChar (c : Char) : Bool :=
  decide (49 ≤ c.toNat) && decide (c.toNat ≤ 53)

/-- Variant nibble `[89abAB]` of `_UUID_RE`. -/
def isUuidVariantChar (c : Char) : Bool :=
  c = '8' || c = '9' || c = 'a' || c = 'b' || c = 'A' || c = 'B'

/-- The hyphenated alternative of `_UUID_RE`:
`[0-9a-fA-F]{8}-[0-9a-fA-F]{4}-[1-5][0-9a-fA-F]{3}-[89abAB][0-9a-fA-F]{3}-[0-9a-fA-F]{12}`. -/
def isCanonicalUuidChars (cs : List Char) : Bool :=
  match splitOnChar (Char.ofNat 45) cs with
  | [a, b, c, d, e] =>
      a.length == 8 && b.length == 4 && c.length == 4 && d.length == 4 &&
      e.length == 12 && a.all isHexDigitChar && b.all isHexDigitChar &&
      e.all isHexDigitChar &&
      (match c with
       | v :: rest => isUuidVersionChar v && rest.all isHexDigitChar
       | [] => false) &&
      (match d with
       | w :: rest => isUuidVariantChar w && rest.all isHexDigitChar
       | [] => false)
  | _ => false

/-- Full match of `_UUID_RE` (hyphenated, bare 32-hex, braced, or URN form). -/
def uuidFullmatch (s : String) : Bool :=
  let cs := s.toList
  isCanonicalUuidChars cs ||
  (cs.length == 32 && cs.all isHexDigitChar) ||
  (match cs with
   | c0 :: rest =>
       c0 == Char.ofNat 123 &&
       (match rest.reverse with
        | cl :: mid => cl == Char.ofNat 125 && isCanonicalUuidChars mid.reverse
        | [] => false)
   | [] => false) ||
  (cs.take 9 == "urn:uuid:".toList && isCanonicalUuidChars (cs.drop 9))

/-- `np.isclose(a, b, atol=1e-8)` with numpy's default `rtol=1e-5`:
`|a - b| <= atol + rtol * |b|`. -/
def qClose (a b : ℚ) : Bool :=
  decide (|a - b| ≤ 1 / 100000000 + (1 / 100000) * |b|)

/-- `np.round` / Python `round` on a scalar: round half to even. -/
def roundHalfEven (q : ℚ) : Int :=
  let fl := ⌊q⌋
  let r := q - (fl : ℚ)
  if r < 1 / 2 then fl
  else if 1 / 2 < r then fl + 1
  else if fl % 2 = 0 then fl else fl + 1

/-- `_infer_target_col`: the first conventional target name present. -/
def inferTargetCol (cols : List String) : Option String :=
  ["target", "income", "label", "class", "outcome"].find?
    (fun c => cols.contains c)

/-- `_parse_csv_list`: split on commas, strip, drop empties. -/
def parseCsvList : Option String → List String
  | none => []
  | some v =>
      if v = "" then []
      else (((splitOnChar (Char.ofNat 44) v.toList).map
        (fun cs => strTrim (String.mk cs)))).filter (fun x => x != "")

/-- `_infer_target_dtype`: direct numeric/categorical inference on the raw
column. -/
def inferTargetDtype (ops : PandasOps) (df : List (String × Series))
    (col : String) : String :=
  match dictGet df col with
  | none => "unknown"
  | some s =>
      if !(isNumericDtype s || isBoolDtype s) then "categorical"
      else
        let xn := s.cells.filterMap (toNumericCell ops)
        if xn.isEmpty then "continuous"
        else if xn.all (fun v => qClose v ((roundHalfEven v : Int) : ℚ)) then
          "integer"
        else "continuous"

/-- `_target_dtype_from_column_type`: pass canonical dtype strings through,
discard anything else. -/
def targetDtypeFromColumnType : Option String → Option String
  | none => none
  | some ct =>
      let t := strLower (strTrim ct)
      if ["integer", "continuous", "categorical", "ordinal"].contains t then
        some t
      else none

/-- The sentinel strings `_maybe_parse_datetime_like` replaces by missing
before attempting to parse. -/
def datetimeSentinels : List String :=
  ["", " ", "null", "NULL", "none", "None", "nan", "NaN", "nat", "NaT"]

/-- Result of `_maybe_parse_datetime_like`. -/
structure DtParse where
  series : Series
  accepted : Bool
  fmtHint : Option String
  deriving Repr

/-- `dt.astype("int64")` with missing restored: epoch-ns value of one cell
of an already datetime/timedelta-typed column. -/
def dtCellNs : Cell → Option Int
  | .i n => some n
  | _ => none

/-- Reassemble the float64 series of epoch-ns values (missing as NaN). -/
def seriesFromNs (conv : List (Option Int)) : Series :=
  ⟨PDtype.float64,
   conv.map (fun o => match o with
     | none => Cell.na
     | some n => Cell.f (n : ℚ))⟩

/-- The sentinel replacement on `raw` in `_maybe_parse_datetime_like`
(string conversion, then sentinel strings to missing). -/
def sanitizeRaw (cells : List Cell) : List (Option String) :=
  (cells.map cellAsString).map (fun o => match o with
    | some v => if datetimeSentinels.contains v then none else some v
    | none => none)

/-- `_maybe_parse_datetime_like`.  The pandas strategy loop is the oracle
`ops.parseDatetimeBest`; an empty column is never accepted because the
mean of an empty mask is NaN and every NaN comparison is false. -/
def maybeParseDatetimeLike (ops : PandasOps) (s : Series)
    (minParseFrac : ℚ) : DtParse :=
  if isDatetimeDtype s || isTimedeltaDtype s then
    { series := seriesFromNs (s.cells.map dtCellNs), accepted := true,
      fmtHint := some "%Y-%m-%dT%H:%M:%S" }
  else if isStringLikeDtype s then
    if s.cells.isEmpty then { series := s, accepted := false, fmtHint := none }
    else
      match ops.parseDatetimeBest (sanitizeRaw s.cells) with
      | none => { series := s, accepted := false, fmtHint := none }
      | some conv =>
          let frac : ℚ :=
            ((conv.countP Option.isSome : ℕ) : ℚ) /
              ((sanitizeRaw s.cells).length : ℚ)
          if minParseFrac ≤ frac then
            { series := seriesFromNs conv, accepted := true,
              fmtHint := some (ops.guessDatetimeFormat (sanitizeRaw s.cells)) }
          else { series := s, accepted := false, fmtHint := none }
  else { series := s, accepted := false, fmtHint := none }

/-- `_is_guid_like_series`. -/
def isGuidLikeSeries (s : Series) (minMatchFrac : ℚ) : Bool :=
  if !isStringLikeDtype s then false
  else
    let x := s.cells.filterMap cellAsString
    if x.isEmpty then false
    else
      decide (minMatchFrac ≤
        ((x.countP (fun v => uuidFullmatch (strTrim v)) : ℕ) : ℚ) /
          (x.length : ℚ))

/-- `_is_number_like_series`. -/
def isNumberLikeSeries (ops : PandasOps) (s : Series) : Bool :=
  if isNumericDtype s || isBoolDtype s then true
  else if isDatetimeDtype s || isTimedeltaDtype s then true
  else if s.dtype = PDtype.object then
    if s.cells.isEmpty then false
    else
      decide ((95 : ℚ) / 100 ≤
        ((s.cells.countP (fun c => (toNumericCell ops c).isSome) : ℕ) : ℚ) /
          (s.cells.length : ℚ))
  else false

/-- `_bounds_for_number_like`. -/
def boundsForNumberLike (ops : PandasOps) (s : Series) (padFrac : ℚ)
    (integerLike : Bool) : List ℚ :=
  let x := s.cells.filterMap (toNumericCell ops)
  match x with
  | [] => [0, 1]
  | h :: t =>
      let vmin := t.foldl min h
      let vmax := t.foldl max h
      let span := vmax - vmin
      let pad :=
        if 0 < span then padFrac * span
        else if 0 < padFrac then max (|vmin| * padFrac) 1 else 0
      let lo := vmin - pad
      let hi := vmax + pad
      if integerLike then [((⌊lo⌋ : Int) : ℚ), ((⌈hi⌉ : Int) : ℚ)]
      else [lo, hi]

/-- `_binary_integer_domain_values`. -/
def binaryIntegerDomainValues (ops : PandasOps) (s : Series) :
    Option (List String) :=
  let x := s.cells.filterMap (toNumericCell ops)
  if x.isEmpty then none
  else
    let ux := x.dedup
    if ux.length != 2 ||
        !(ux.all (fun v => qClose v ((roundHalfEven v : Int) : ℚ))) then none
    else
      some ((List.insertionSort (· ≤ ·) (ux.map roundHalfEven)).map
        (fun n => toString n))

/-- The CLI configuration surface of `prepare_schema.py`, with the argparse
defaults.  The three JSON documents arrive already parsed. -/
structure Config where
  targetCol : Option String := none
  targetCols : Option String := none
  targetKind : Option String := none
  survivalEventCol : Option String := none
  survivalTimeCol : Option String := none
  columnTypes : Option JTree := none
  targetSpecFile : Option JTree := none
  constraintsFile : Option JTree := none
  padFrac : ℚ := 0
  padFracInteger : Option ℚ := none
  padFracContinuous : Option ℚ := none
  inferCategories : Bool := false
  maxCategories : Int := 200
  inferBinaryDomain : Bool := false
  inferDatetimes : Bool := false
  datetimeMinParseFrac : ℚ := 95 / 100
  datetimeOutputFormat : String := "preserve"
  guidMinMatchFrac : ℚ := 95 / 100
  noPublishLabelDomain : Bool := false
  redactSourcePath : Bool := false
  datasetName : Option String := none

/-- `pad_frac_integer` with its fallback to the global `pad_frac`. -/
def Config.padFracIntegerEff (cfg : Config) : ℚ :=
  cfg.padFracInteger.getD cfg.padFrac

/-- `pad_frac_continuous` with its fallback to the global `pad_frac`. -/
def Config.padFracContinuousEff (cfg : Config) : ℚ :=
  cfg.padFracContinuous.getD cfg.padFrac

/-- A `datetime_spec` entry. -/
structure DtSpec where
  storage : String
  output_format : String
  timezone : String
  deriving Repr, DecidableEq

/-- `out_fmt = hint if args.datetime_output_format == "preserve" else
args.datetime_output_format`, then `out_fmt or "%Y-%m-%dT%H:%M:%S"`. -/
def resolveOutputFormat (cfg : Config) (fmtHint : Option String) : String :=
  let outFmt :=
    if strLower (strTrim cfg.datetimeOutputFormat) = "preserve" then fmtHint
    else some cfg.datetimeOutputFormat
  match outFmt with
  | some f => if f = "" then "%Y-%m-%dT%H:%M:%S" else f
  | none => "%Y-%m-%dT%H:%M:%S"

/-- Parsing and shape validation of the `--column-types` document. -/
def parseTypeOverrides (cfg : Config) :
    Except String (List (String × JTree)) :=
  match cfg.columnTypes with
  | none => .ok []
  | some (.obj fields) => .ok fields
  | some _ => .error "--column-types must be a JSON object"

/-- `_override_for`: a string value becomes a one-field rule object, a dict
is taken as is, anything else is a configuration error. -/
def overrideFor (typeOverrides : List (String × JTree)) (col : String) :
    Except String (Option (List (String × JTree))) :=
  match dictGet typeOverrides col with
  | none => .ok none
  | some (.str v) => .ok (some [("type", JTree.str v)])
  | some (.obj fields) => .ok (some fields)
  | some _ =>
      .error ("--column-types[" ++ col ++ "] must be a string or object")

/-- What the per-column loop records for one column. -/
structure ColResult where
  rate : ℚ
  ctype : String
  cats : Option (List String)
  bounds : Option (List ℚ)
  dtspec : Option DtSpec
  guid : Bool
  deriving Repr, DecidableEq

/-- `float(s.isna().mean())`; the empty column is mapped to 0 (the code
would record NaN there, a path no claim exercises). -/
def isnaMean (s : Series) : ℚ :=
  if s.cells.isEmpty then 0
  else ((s.cells.countP cellIsNa : ℕ) : ℚ) / (s.cells.length : ℚ)

/-- Code-point lexicographic `≤` on char lists (Python string ordering),
written structurally. -/
def charListLe : List Char → List Char → Bool
  | [], _ => true
  | _ :: _, [] => false
  | a :: as, b :: bs =>
      if a.toNat < b.toNat then true
      else if b.toNat < a.toNat then false
      else charListLe as bs

/-- Python `sorted` on strings (ascending lexicographic). -/
def sortedStrings (xs : List String) : List String :=
  List.insertionSort (fun a b => charListLe a.toList b.toList = true) xs

/-- The `datetime_spec` entry written for an accepted datetime column. -/
def mkDtSpec (cfg : Config) (fmtHint : Option String) : DtSpec :=
  { storage := "epoch_ns", output_format := resolveOutputFormat cfg fmtHint,
    timezone := "UTC" }

/-- The body of the per-column loop of `main` (lines 363-442): GUID
short-circuit, optional datetime conversion, user override, boolean path,
number-like path (datetime / binary-domain / bounds), categorical
fallback. -/
def classifyColumn (ops : PandasOps) (cfg : Config)
    (typeOverrides : List (String × JTree)) (c : String) (s0 : Series) :
    Except String ColResult := do
  let rate := isnaMean s0
  if isGuidLikeSeries s0 cfg.guidMinMatchFrac then
    return { rate := rate, ctype := "categorical", cats := none,
             bounds := none, dtspec := none, guid := true }
  let dp :=
    if cfg.inferDatetimes then
      maybeParseDatetimeLike ops s0 cfg.datetimeMinParseFrac
    else { series := s0, accepted := false, fmtHint := none }
  let s := dp.series
  let ov ← overrideFor typeOverrides c
  match ov with
  | some ovf =>
      let tv := (dictGet ovf "type").getD JTree.null
      let t := strLower (strTrim (if jTruthy tv then jToPyStr tv else ""))
      if !(["continuous", "integer", "categorical", "ordinal"].contains t) then
        throw ("--column-types[" ++ c ++ "].type invalid")
      let domv : Option JTree :=
        match dictGet ovf "domain" with
        | some JTree.null => none
        | other => other
      let catsBounds :
          Except String (Option (List String) × Option (List ℚ)) :=
        if (t == "categorical" || t == "ordinal") && domv.isSome then
          match domv with
          | some (.arr xs) => .ok (some (xs.map jToPyStr), none)
          | _ => .error ("--column-types[" ++ c ++ "].domain must be list")
        else if (t == "continuous" || t == "integer") &&
            isNumberLikeSeries ops s then
          let thisPad :=
            if t = "integer" then cfg.padFracIntegerEff
            else cfg.padFracContinuousEff
          .ok (none, some (boundsForNumberLike ops s thisPad (t == "integer")))
        else .ok (none, none)
      let (cats, bounds) ← catsBounds
      let dtspec :=
        if dp.accepted then some (mkDtSpec cfg dp.fmtHint) else none
      return { rate := rate, ctype := t, cats := cats, bounds := bounds,
               dtspec := dtspec, guid := false }
  | none =>
      if isBoolDtype s0 then
        return { rate := rate, ctype := "ordinal", cats := some ["0", "1"],
                 bounds := none, dtspec := none, guid := false }
      else if isNumberLikeSeries ops s then
        if dp.accepted then
          return { rate := rate, ctype := "integer", cats := none,
                   bounds := some (boundsForNumberLike ops s
                     cfg.padFracIntegerEff true),
                   dtspec := some (mkDtSpec cfg dp.fmtHint),
                   guid := false }
        else
          let ctype0 :=
            if isIntegerDtype s0 then "integer"
            else
              let xn := s.cells.filterMap (toNumericCell ops)
              if !xn.isEmpty &&
                  xn.all (fun v => qClose v ((roundHalfEven v : Int) : ℚ)) then
                "integer"
              else "continuous"
          let binDom :=
            if cfg.inferBinaryDomain then binaryIntegerDomainValues ops s
            else none
          match binDom with
          | some dom =>
              return { rate := rate, ctype := "ordinal", cats := some dom,
                       bounds := none, dtspec := none, guid := false }
          | none =>
              let thisPad :=
                if ctype0 = "integer" then cfg.padFracIntegerEff
                else cfg.padFracContinuousEff
              return { rate := rate, ctype := ctype0, cats := none,
                       bounds := some (boundsForNumberLike ops s thisPad
                         (ctype0 == "integer")),
                       dtspec := none, guid := false }
      else
        let cats :=
          if cfg.inferCategories then
            let u := (s.cells.filterMap cellAsString).dedup
            if 0 < u.length ∧ (u.length : Int) ≤ cfg.maxCategories then
              some (sortedStrings u)
            else none
          else none
        return { rate := rate, ctype := "categorical", cats := cats,
                 bounds := none, dtspec := none, guid := false }

/-- The whole per-column loop, in column order. -/
def classifyAll (ops : PandasOps) (cfg : Config)
    (typeOverrides : List (String × JTree))
    (df : List (String × Series)) :
    Except String (List (String × ColResult)) :=
  match df with
  | [] => .ok []
  | p :: rest => do
      let r ← classifyColumn ops cfg typeOverrides p.1 p.2
      let rs ← classifyAll ops cfg typeOverrides rest
      return (p.1, r) :: rs

/-- `d[k] = v` on a JSON object (other values unchanged, as in the code
every call site holds an object). -/
def jSet (t : JTree) (k : String) (v : JTree) : JTree :=
  match t with
  | .obj fields => .obj (dictSet fields k v)
  | other => other

/-- The target-spec dict built from flags (lines 461-466). -/
def mkFlagTargetSpec (ops : PandasOps) (df : List (String × Series))
    (targets : List String) (kind : String) (targetCol : Option String) :
    JTree :=
  JTree.obj
    [("targets", JTree.arr (targets.map JTree.str)),
     ("kind", JTree.str kind),
     ("dtypes", JTree.obj (targets.foldl
        (fun acc t => dictSet acc t (JTree.str (inferTargetDtype ops df t)))
        [])),
     ("primary_target",
      match targetCol with
      | some s => JTree.str s
      | none => JTree.null)]

/-- Target-spec resolution (lines 444-466): an external spec document wins
outright; otherwise targets come from `--target-cols`, the effective
target column, or the survival flag pair, and a partial survival pair is a
configuration error. -/
def resolveTargetSpec (ops : PandasOps) (cfg : Config)
    (df : List (String × Series)) (targetCol : Option String) :
    Except String (Option JTree) :=
  match cfg.targetSpecFile with
  | some j =>
      match j with
      | .obj _ => .ok (some j)
      | _ => .error "--target-spec-file must contain a JSON object"
  | none =>
      let targets0 := parseCsvList cfg.targetCols
      let targets1 :=
        if targets0.isEmpty && optStrTruthy targetCol then [targetCol.getD ""]
        else targets0
      if optStrTruthy cfg.survivalEventCol &&
          optStrTruthy cfg.survivalTimeCol then
        let targets := [cfg.survivalEventCol.getD "", cfg.survivalTimeCol.getD ""]
        let kind :=
          if optStrTruthy cfg.targetKind then cfg.targetKind.getD ""
          else "survival_pair"
        .ok (some (mkFlagTargetSpec ops df targets kind targetCol))
      else if optStrTruthy cfg.survivalEventCol ||
          optStrTruthy cfg.survivalTimeCol then
        .error
          "Both --survival-event-col and --survival-time-col must be provided together"
      else if targets1.isEmpty then .ok none
      else
        let kind :=
          if optStrTruthy cfg.targetKind then cfg.targetKind.getD ""
          else if targets1.length = 1 then "single" else "multi_target"
        .ok (some (mkFlagTargetSpec ops df targets1 kind targetCol))

/-- Per-target dtype normalization (lines 468-486): inferred column dtype
first, then a canonical externally supplied dtype, else direct inference. -/
def normalizeTargetSpecDtypes (ops : PandasOps)
    (df : List (String × Series)) (columnTypes : List (String × String))
    (ts : JTree) : JTree :=
  match jGet ts "targets" with
  | some (.arr tcols) =>
      if tcols.isEmpty then ts
      else
        let existing : List (String × JTree) :=
          match jGet ts "dtypes" with
          | some (.obj fs) => fs
          | _ => []
        let allowed := ["integer", "continuous", "categorical", "ordinal"]
        let normalized := (tcols.map jToPyStr).foldl (fun acc t =>
          let entry : String :=
            match targetDtypeFromColumnType (dictGet columnTypes t) with
            | some mapped => mapped
            | none =>
                match dictGet existing t with
                | some (.str rawv) =>
                    let raw := strLower (strTrim rawv)
                    if !(allowed.contains raw) then inferTargetDtype ops df t
                    else raw
                | _ => inferTargetDtype ops df t
          dictSet acc t (JTree.str entry)) []
        jSet ts "dtypes" (JTree.obj normalized)
  | _ => ts

/-- The generated constraints document. -/
structure Constraints where
  column_constraints : List (String × List (String × JTree))
  cross_column_constraints : List JTree
  row_group_constraints : List JTree

/-- The survival-pair guard of `_build_constraints` (lines 232-236):
the event/time column pair when the target spec has kind survival_pair
and at least two targets. -/
def survivalPairOf (targetSpec : Option JTree) : Option (String × String) :=
  match targetSpec with
  | some ts =>
      if jToPyStr ((jGet ts "kind").getD JTree.null) = "survival_pair" then
        match jGet ts "targets" with
        | some (.arr (t0 :: t1 :: _)) => some (jToPyStr t0, jToPyStr t1)
        | _ => none
      else none
  | none => none

/-- The single survival-pair cross-column record of `_build_constraints`. -/
def survivalCrossRecord (eventCol timeCol : String) : JTree :=
  JTree.obj
    [("name", JTree.str "survival_pair_definition"),
     ("type", JTree.str "survival_pair"),
     ("event_col", JTree.str eventCol),
     ("time_col", JTree.str timeCol),
     ("event_allowed_values", JTree.arr [JTree.num 0, JTree.num 1]),
     ("time_min_exclusive", JTree.num 0)]

/-- `_build_constraints`. -/
def buildConstraints (columnTypes : List (String × String))
    (publicCategories : List (String × List String))
    (publicBounds : List (String × List ℚ))
    (guidLikeColumns : List String)
    (targetSpec : Option JTree) : Constraints :=
  let ccs := columnTypes.foldl (fun acc p =>
    let c0 : List (String × JTree) := [("type", JTree.str p.2)]
    let c1 :=
      match dictGet publicCategories p.1 with
      | some cats => dictSet c0 "allowed_values" (JTree.arr (cats.map .str))
      | none => c0
    let c2 :=
      match dictGet publicBounds p.1 with
      | some [lo, hi] =>
          dictSet (dictSet c1 "min" (JTree.num lo)) "max" (JTree.num hi)
      | _ => c1
    let c3 :=
      if guidLikeColumns.contains p.1 then
        dictSet c2 "semantic_role" (JTree.str "identifier")
      else c2
    dictSet acc p.1 c3) []
  match survivalPairOf targetSpec with
  | none => ⟨ccs, [], []⟩
  | some (eventCol, timeCol) =>
      let ec := (dictGet ccs eventCol).getD
        [("type", JTree.str ((dictGet columnTypes eventCol).getD "categorical"))]
      let ec2 := dictSet ec "allowed_values"
        (JTree.arr [JTree.str "0", JTree.str "1"])
      let ccs2 := dictSet ccs eventCol ec2
      let tc := (dictGet ccs2 timeCol).getD
        [("type", JTree.str ((dictGet columnTypes timeCol).getD "continuous"))]
      let tc2 := dictSet tc "min_exclusive" (JTree.num 0)
      ⟨dictSet ccs2 timeCol tc2, [survivalCrossRecord eventCol timeCol], []⟩

/-- Value semantics of `_merge_constraints`: the deep copy of the base is
the base value itself, per-column rule objects are updated key by key, and
user cross-column / row-group entries are appended.  (The heap-level frame
property of the same function is proved separately on the store model.) -/
def mergeConstraintsPure (base : Constraints) (user : JTree) : Constraints :=
  let ccs :=
    match jGet user "column_constraints" with
    | some (.obj ufields) =>
        ufields.foldl (fun acc p =>
          match p.2 with
          | .obj rules =>
              let cur := (dictGet acc p.1).getD []
              dictSet acc p.1 (rules.foldl (fun c q => dictSet c q.1 q.2) cur)
          | _ => acc) base.column_constraints
    | _ => base.column_constraints
  let cross :=
    match jGet user "cross_column_constraints" with
    | some (.arr xs) => base.cross_column_constraints ++ xs
    | _ => base.cross_column_constraints
  let row :=
    match jGet user "row_group_constraints" with
    | some (.arr xs) => base.row_group_constraints ++ xs
    | _ => base.row_group_constraints
  ⟨ccs, cross, row⟩

/-- The provenance audit record. -/
structure Provenance where
  generated_at_utc : String
  source_csv : String
  source_delimiter : String
  pad_frac : ℚ
  pad_frac_integer : ℚ
  pad_frac_continuous : ℚ
  inferred_categories : Bool
  max_categories : Int
  inferred_datetimes : Bool
  datetime_min_parse_frac : ℚ
  inferred_binary_domain : Bool
  guid_min_match_frac : ℚ
  guid_like_columns : List String
  datetime_output_format : String
  no_publish_label_domain : Bool
  column_types_overrides : Option String

/-- The composed schema document, before JSON rendering. -/
structure SchemaOut where
  schema_version : String
  dataset : String
  target_col : Option String
  label_domain : List String
  missing_value_rates : List (String × ℚ)
  public_bounds : List (String × List ℚ)
  public_categories : List (String × List String)
  column_types : List (String × String)
  datetime_spec : List (String × DtSpec)
  provenance : Provenance
  target_spec : Option JTree
  constraints : Constraints

/-- I/O facts main obtains outside the analysed logic (timestamp, paths,
sniffed delimiter). -/
structure Env where
  now : String := "1970-01-01T00:00:00+00:00"
  dataPath : String := "data.csv"
  dataStem : String := "data"
  delimiter : String := ","
  columnTypesPath : Option String := none

/-- The list of target names scrubbed under `--no-publish-label-domain`
(lines 497-504). -/
def scrubTargets (targetSpec : Option JTree) (targetCol : Option String) :
    List String :=
  let fromTargetCol :=
    match targetCol with
    | some tc => if tc = "" then [] else [tc]
    | none => []
  match targetSpec with
  | some ts =>
      match jGet ts "targets" with
      | some (.arr tcols) => tcols.map jToPyStr
      | _ => fromTargetCol
  | none => fromTargetCol

/-- `target_col = args.target_col or _infer_target_col(cols)` (line 329). -/
def effectiveTargetCol (cfg : Config) (cols : List String) : Option String :=
  if optStrTruthy cfg.targetCol then cfg.targetCol else inferTargetCol cols

/-- The parsed `--column-types` association list (empty when absent or
malformed; the malformed case aborts the run anyway). -/
def cfgTypeOverrides (cfg : Config) : List (String × JTree) :=
  match cfg.columnTypes with
  | some (.obj fields) => fields
  | _ => []

/-- `main` from the point the dataframe is in memory to the composed
schema document (lines 326-556): per-column classification, target-spec
resolution, dtype normalization, label-domain publication and scrubbing,
constraint assembly and user-constraint merge.  A `.error` result models
`SystemExit` before anything is written; the file write happens after
every abort point. -/
def columnTypesOf (colResults : List (String × ColResult)) :
    List (String × String) :=
  colResults.map (fun p => (p.1, p.2.ctype))

def publicCategories0Of (colResults : List (String × ColResult)) :
    List (String × List String) :=
  colResults.filterMap (fun p => p.2.cats.map (fun v => (p.1, v)))

def publicBoundsOf (colResults : List (String × ColResult)) :
    List (String × List ℚ) :=
  colResults.filterMap (fun p => p.2.bounds.map (fun v => (p.1, v)))

def datetimeSpecOf (colResults : List (String × ColResult)) :
    List (String × DtSpec) :=
  colResults.filterMap (fun p => p.2.dtspec.map (fun v => (p.1, v)))

def guidColumnsOf (colResults : List (String × ColResult)) : List String :=
  (colResults.filter (fun p => p.2.guid)).map Prod.fst

/-- Label-domain publication (lines 488-495): the enumerated primary
target values merged into the published categories when the target is
categorical/ordinal, suppression is off and cardinality fits the cap.
Returns `(label_domain, public_categories)`. -/
def labelPairOf (cfg : Config) (df : List (String × Series))
    (targetCol : Option String) (columnTypes : List (String × String))
    (pc0 : List (String × List String)) :
    List String × List (String × List String) :=
  match targetCol with
  | some tc =>
      if tc != "" && dictHas df tc && !cfg.noPublishLabelDomain then
        if dictGet columnTypes tc == some "categorical" ||
            dictGet columnTypes tc == some "ordinal" then
          let u := (((dictGet df tc).getD ⟨PDtype.object, []⟩).cells.filterMap
            cellAsString).dedup
          let us := sortedStrings u
          if 0 < us.length ∧ (us.length : Int) ≤ cfg.maxCategories then
            (us, dictSet pc0 tc us)
          else ([], pc0)
        else ([], pc0)
      else ([], pc0)
  | none => ([], pc0)

/-- The schema composition tail of `main` after classification and
target-spec resolution: dtype normalization, label-domain publication and
scrubbing, constraint assembly, and the user-constraint merge. -/
def composeSchema (ops : PandasOps) (cfg : Config) (env : Env)
    (df : List (String × Series)) (targetCol : Option String)
    (colResults : List (String × ColResult)) (targetSpec0 : Option JTree) :
    Except String SchemaOut := do
  let columnTypes := columnTypesOf colResults
  let targetSpec := targetSpec0.map (normalizeTargetSpecDtypes ops df columnTypes)
  let labelPair := labelPairOf cfg df targetCol columnTypes
    (publicCategories0Of colResults)
  let publicCategories :=
    if cfg.noPublishLabelDomain then
      (scrubTargets targetSpec targetCol).foldl
        (fun acc t => dictPop acc t) labelPair.2
    else labelPair.2
  let constraints0 := buildConstraints columnTypes publicCategories
    (publicBoundsOf colResults) (guidColumnsOf colResults) targetSpec
  let constraints ←
    match cfg.constraintsFile with
    | none => pure constraints0
    | some uc =>
        match uc with
        | .obj _ => pure (mergeConstraintsPure constraints0 uc)
        | _ => throw "--constraints-file must contain a JSON object"
  return { schema_version := "1.3.0",
           dataset :=
             if optStrTruthy cfg.datasetName then cfg.datasetName.getD ""
             else env.dataStem,
           target_col := targetCol,
           label_domain := labelPair.1,
           missing_value_rates := colResults.map (fun p => (p.1, p.2.rate)),
           public_bounds := publicBoundsOf colResults,
           public_categories := publicCategories,
           column_types := columnTypes,
           datetime_spec := datetimeSpecOf colResults,
           provenance := {
             generated_at_utc := env.now,
             source_csv :=
               if cfg.redactSourcePath then "example_data_path_to_csv_file"
               else env.dataPath,
             source_delimiter := env.delimiter,
             pad_frac := cfg.padFrac,
             pad_frac_integer := cfg.padFracIntegerEff,
             pad_frac_continuous := cfg.padFracContinuousEff,
             inferred_categories := cfg.inferCategories,
             max_categories := cfg.maxCategories,
             inferred_datetimes := cfg.inferDatetimes,
             datetime_min_parse_frac := cfg.datetimeMinParseFrac,
             inferred_binary_domain := cfg.inferBinaryDomain,
             guid_min_match_frac := cfg.guidMinMatchFrac,
             guid_like_columns := guidColumnsOf colResults,
             datetime_output_format := cfg.datetimeOutputFormat,
             no_publish_label_domain := cfg.noPublishLabelDomain,
             column_types_overrides := env.columnTypesPath },
           target_spec := targetSpec,
           constraints := constraints }

/-- `main` from the point the dataframe is in memory to the composed
schema document (lines 326-556).  A `.error` result models `SystemExit`
before anything is written; the file write happens after every abort
point. -/
def runPipeline (ops : PandasOps) (cfg : Config) (env : Env)
    (df : List (String × Series)) : Except String SchemaOut := do
  let targetCol := effectiveTargetCol cfg (df.map Prod.fst)
  let typeOverrides ← parseTypeOverrides cfg
  let colResults ← classifyAll ops cfg typeOverrides df
  let targetSpec0 ← resolveTargetSpec ops cfg df targetCol
  composeSchema ops cfg env df targetCol colResults targetSpec0

/-- JSON rendering of a string list. -/
def jOfStrings (xs : List String) : JTree := .arr (xs.map .str)

/-- JSON rendering of an optional string (`null` for Python `None`). -/
def jOfOptStr : Option String → JTree
  | some s => .str s
  | none => .null

/-- JSON rendering of a `datetime_spec` entry. -/
def dtSpecJson (d : DtSpec) : JTree :=
  .obj [("storage", .str d.storage), ("output_format", .str d.output_format),
        ("timezone", .str d.timezone)]

/-- JSON rendering of the provenance record (lines 516-535). -/
def provenanceJson (p : Provenance) : JTree :=
  .obj [("generated_at_utc", .str p.generated_at_utc),
        ("source_csv", .str p.source_csv),
        ("source_delimiter", .str p.source_delimiter),
        ("pad_frac", .num p.pad_frac),
        ("pad_frac_integer", .num p.pad_frac_integer),
        ("pad_frac_continuous", .num p.pad_frac_continuous),
        ("inferred_categories", .bool p.inferred_categories),
        ("max_categories", .num (p.max_categories : ℚ)),
        ("inferred_datetimes", .bool p.inferred_datetimes),
        ("datetime_min_parse_frac", .num p.datetime_min_parse_frac),
        ("inferred_binary_domain", .bool p.inferred_binary_domain),
        ("guid_min_match_frac", .num p.guid_min_match_frac),
        ("guid_like_columns", jOfStrings p.guid_like_columns),
        ("datetime_output_format", .str p.datetime_output_format),
        ("no_publish_label_domain", .bool p.no_publish_label_domain),
        ("column_types_overrides", jOfOptStr p.column_types_overrides)]

/-- JSON rendering of the constraints document. -/
def constraintsJson (c : Constraints) : JTree :=
  .obj [("column_constraints",
         .obj (c.column_constraints.map (fun p => (p.1, JTree.obj p.2)))),
        ("cross_column_constraints", .arr c.cross_column_constraints),
        ("row_group_constraints", .arr c.row_group_constraints)]

/-- The written JSON document (lines 506-553): the dict literal keys, then
`target_spec` inserted only when present, then `constraints`. -/
def schemaJsonFields (sch : SchemaOut) : List (String × JTree) :=
  let base : List (String × JTree) :=
    [("schema_version", .str sch.schema_version),
     ("dataset", .str sch.dataset),
     ("target_col", jOfOptStr sch.target_col),
     ("label_domain", jOfStrings sch.label_domain),
     ("missing_value_rates",
      .obj (sch.missing_value_rates.map (fun p => (p.1, JTree.num p.2)))),
     ("public_bounds",
      .obj (sch.public_bounds.map
        (fun p => (p.1, JTree.arr (p.2.map JTree.num))))),
     ("public_categories",
      .obj (sch.public_categories.map (fun p => (p.1, jOfStrings p.2)))),
     ("column_types",
      .obj (sch.column_types.map (fun p => (p.1, JTree.str p.2)))),
     ("datetime_spec",
      .obj (sch.datetime_spec.map (fun p => (p.1, dtSpecJson p.2)))),
     ("provenance", provenanceJson sch.provenance)]
  let withTs :=
    match sch.target_spec with
    | some ts => base ++ [("target_spec", ts)]
    | none => base
  withTs ++ [("constraints", constraintsJson sch.constraints)]

/-- The key set of the written schema document. -/
def schemaKeys (sch : SchemaOut) : List String :=
  (schemaJsonFields sch).map Prod.fst

/-- The fixed keys present in every written schema document. -/
def schemaBaseKeys : List String :=
  ["schema_version", "dataset", "target_col", "label_domain",
   "missing_value_rates", "public_bounds", "public_categories",
   "column_types", "datetime_spec", "provenance"]

/-! ## The datetime renderer (`render_datetime.py`) -/

/-- The display format chosen for one `datetime_spec` entry (lines 34-38):
the stored `output_format` when it is a non-blank string, else the ISO
default. -/
def renderFmtFor (meta : JTree) : String :=
  match meta with
  | .obj fs =>
      match dictGet fs "output_format" with
      | some (.str f) => if strTrim f ≠ "" then f else "%Y-%m-%dT%H:%M:%S"
      | _ => "%Y-%m-%dT%H:%M:%S"
  | _ => "%Y-%m-%dT%H:%M:%S"

/-- One rendered cell (lines 40-42): numeric coercion, epoch-ns datetime
conversion and strftime, with every missing or unconvertible value left
missing. -/
def renderCellWith (ops : PandasOps) (fmt : String) (c : Cell) : Cell :=
  match toNumericCell ops c with
  | none => Cell.na
  | some q =>
      match ops.strftimeNs fmt q with
      | none => Cell.na
      | some v => Cell.s v

/-- One iteration of the renderer loop (lines 31-46). -/
def renderStep (ops : PandasOps) (keepOriginal : Bool)
    (tbl : List (String × List Cell)) (entry : String × JTree) :
    List (String × List Cell) :=
  if !(dictHas tbl entry.1) then tbl
  else
    let fmt := renderFmtFor entry.2
    let colCells := (dictGet tbl entry.1).getD []
    let rendered := colCells.map (renderCellWith ops fmt)
    if keepOriginal then dictSet tbl (entry.1 ++ "__rendered") rendered
    else dictSet tbl entry.1 rendered

/-- `main` of `render_datetime.py` from parsed inputs to the written
table; `none` models the early clean return (no output file) when the
schema has no usable `datetime_spec`. -/
def renderDatetimeRun (ops : PandasOps) (schema : JTree)
    (df : List (String × List Cell)) (keepOriginal : Bool) :
    Option (List (String × List Cell)) :=
  let dspec : Option (List (String × JTree)) :=
    match schema with
    | .obj fs =>
        match dictGet fs "datetime_spec" with
        | some (.obj ds) => some ds
        | some _ => none
        | none => some []
    | _ => some []
  match dspec with
  | none => none
  | some ds =>
      if ds.isEmpty then none
      else some (ds.foldl (renderStep ops keepOriginal) df)

/-! ## A concrete executable oracle used by witnesses and counterexamples -/

/-- Digits-only parse of a natural number. -/
def parseDigits (cs : List Char) : Option ℕ :=
  if cs.isEmpty then none
  else if cs.all Char.isDigit then
    some (cs.foldl (fun a c => a * 10 + (c.toNat - 48)) 0)
  else none

/-- A plain decimal-literal reading of `pd.to_numeric` on strings, enough
to exercise every analysed branch. -/
def demoParseNumeric (s : String) : Option ℚ :=
  let t := (strTrim s).toList
  let neg := (match t with
    | c :: _ => c == Char.ofNat 45
    | [] => false)
  let t2 := if neg then t.drop 1 else t
  match splitOnChar (Char.ofNat 46) t2 with
  | [ip] =>
      match parseDigits ip with
      | some n => some (if neg then -(n : ℚ) else (n : ℚ))
      | none => none
  | [ip, fp] =>
      match parseDigits ip, parseDigits fp with
      | some n, some m =>
          let q : ℚ := (n : ℚ) + (m : ℚ) / ((10 : ℚ) ^ fp.length)
          some (if neg then -q else q)
      | _, _ => none
  | _ => none

/-- A concrete `PandasOps`: strings parse as decimal literals, the best
datetime strategy parses every non-missing value to epoch 0, the format
guess is a fixed date pattern, and strftime renders pattern and value. -/
def demoOps : PandasOps :=
  { toNumericStr := demoParseNumeric,
    parseDatetimeBest := fun raw => some (raw.map (fun o => o.map (fun _ => (0 : Int)))),
    guessDatetimeFormat := fun _ => "%Y-%m-%d",
    strftimeNs := fun fmt q => some (fmt ++ "#" ++ toString q) }

/-! ## Concrete inputs for witnesses and counterexamples -/

def uuidA : String := "550e8400-e29b-41d4-a716-446655440000"

def uuidB : String := "550e8400-e29b-41d4-a716-446655440001"

/-- A dataset whose single column is both GUID-like and named like an
inferable target. -/
def dfGuidTarget : List (String × Series) :=
  [("target", ⟨PDtype.object, [Cell.s uuidA, Cell.s uuidB]⟩)]

/-- A GUID id column next to an integer target. -/
def dfGuidPlain : List (String × Series) :=
  [("id", ⟨PDtype.object, [Cell.s uuidA, Cell.s uuidB]⟩),
   ("target", ⟨PDtype.int64, [Cell.i 0, Cell.i 1]⟩)]

/-- A parseable date column with two distinct values, next to a target. -/
def dfDates : List (String × Series) :=
  [("time", ⟨PDtype.object,
     [Cell.s "2023-01-01", Cell.s "2023-01-02", Cell.s "2023-01-01"]⟩),
   ("target", ⟨PDtype.int64, [Cell.i 0, Cell.i 1, Cell.i 0]⟩)]

/-- A native boolean column named like an inferable target. -/
def dfBoolTarget : List (String × Series) :=
  [("target", ⟨PDtype.bool, [Cell.b true, Cell.b false]⟩)]

/-- A native boolean column next to an integer target. -/
def dfBoolPlain : List (String × Series) :=
  [("is_active", ⟨PDtype.bool, [Cell.b true, Cell.b false, Cell.b true]⟩),
   ("target", ⟨PDtype.int64, [Cell.i 0, Cell.i 1, Cell.i 0]⟩)]

def cfgTargetOnly : Config := { targetCol := some "target" }

def cfgDtBinary : Config :=
  { inferDatetimes := true, inferBinaryDomain := true,
    targetCol := some "target" }

def cfgDtOverride : Config :=
  { inferDatetimes := true, targetCol := some "target",
    columnTypes := some (JTree.obj [("time", JTree.str "ordinal")]) }

/-- An empty provenance record (fallback value only). -/
def emptyProvenance : Provenance :=
  { generated_at_utc := "", source_csv := "", source_delimiter := "",
    pad_frac := 0, pad_frac_integer := 0, pad_frac_continuous := 0,
    inferred_categories := false, max_categories := 0,
    inferred_datetimes := false, datetime_min_parse_frac := 0,
    inferred_binary_domain := false, guid_min_match_frac := 0,
    guid_like_columns := [], datetime_output_format := "",
    no_publish_label_domain := false, column_types_overrides := none }

/-- A syntactically empty schema used as the fallback of `runOrDefault`. -/
def emptySchemaOut : SchemaOut :=
  { schema_version := "", dataset := "", target_col := none,
    label_domain := [], missing_value_rates := [], public_bounds := [],
    public_categories := [], column_types := [], datetime_spec := [],
    provenance := emptyProvenance, target_spec := none,
    constraints := ⟨[], [], []⟩ }

/-- Projects a successful run to its schema (used to state closed facts
about concrete runs). -/
def runOrDefault (e : Except String SchemaOut) : SchemaOut :=
  match e with
  | .ok s => s
  | .error _ => emptySchemaOut

/-- A dataset with no inferable target column. -/
def dfNoTarget : List (String × Series) :=
  [("feature", ⟨PDtype.int64, [Cell.i 1]⟩)]

def cfgSurvivalPartialFile : Config :=
  { survivalEventCol := some "event",
    targetSpecFile := some (JTree.obj
      [("targets", JTree.arr [JTree.str "feature"]),
       ("kind", JTree.str "single")]) }

def cfgSurvivalBoth : Config :=
  { survivalEventCol := some "event", survivalTimeCol := some "time" }

def cfgThreeTargets : Config :=
  { targetCols := some "a,b,c", targetKind := some "survival_pair" }

/-- `np.min` over a nonempty list (0 on empty, never used there). -/
def listMin : List ℚ → ℚ
  | [] => 0
  | h :: t => t.foldl min h

/-- `np.max` over a nonempty list (0 on empty, never used there). -/
def listMax : List ℚ → ℚ
  | [] => 0
  | h :: t => t.foldl max h

/-- The padding rule as the specification states it, phrased on the true
minimum and maximum; compared against `_bounds_for_number_like`. -/
def padSpec (padFrac vmin vmax : ℚ) : ℚ :=
  if vmin < vmax then padFrac * (vmax - vmin)
  else if 0 < padFrac then max (|vmin| * padFrac) 1 else 0

/-- A schema document with one datetime_spec entry, for the renderer. -/
def rdrSchema : JTree :=
  .obj [("datetime_spec", .obj
    [("ts", .obj [("storage", JTree.str "epoch_ns"),
                  ("output_format", JTree.str "%Y-%m-%d")])])]

/-- An input table for the renderer: a numeric epoch column with one
missing value, plus an unrelated column. -/
def rdrTable : List (String × List Cell) :=
  [("ts", [Cell.i 0, Cell.na]), ("other", [Cell.s "x", Cell.s "y"])]


/-! ## Heap model for the merge frame property

`_merge_constraints` (prepare_schema.py lines 261-277) works by mutating
Python objects in place, so the frame part of its specification (neither
input object graph is changed by the merge) is stated on an explicit
heap: addresses, heap objects, a fuel-indexed reification of heap values
back into JSON trees, a fuel-indexed `copy.deepcopy`, and a step-by-step
translation of the function body.  Value-level consequences of the same
function (key-by-key union of per-column rule objects, appending of the
constraint lists) are proved on `mergeConstraintsPure` above. -/

abbrev Addr := Nat

/-- A Python value slot: an immutable primitive or a reference into the
heap. -/
inductive HVal where
  | null : HVal
  | b (v : Bool) : HVal
  | num (q : ℚ) : HVal
  | str (s : String) : HVal
  | ref (a : Addr) : HVal
  deriving Repr, DecidableEq

/-- A heap object: a mutable dict (insertion-ordered fields) or list. -/
inductive HObj where
  | dict (fields : List (String × HVal)) : HObj
  | arr (items : List HVal) : HObj
  deriving Repr, DecidableEq

/-- The heap: allocated objects plus the next fresh address. -/
structure Store where
  mem : List (Addr × HObj)
  next : Addr
  deriving Repr

def memGet : List (Addr × HObj) → Addr → Option HObj
  | [], _ => none
  | p :: rest, a => if p.1 = a then some p.2 else memGet rest a

def memSet : List (Addr × HObj) → Addr → HObj → List (Addr × HObj)
  | [], a, o => [(a, o)]
  | p :: rest, a, o => if p.1 = a then (a, o) :: rest else p :: memSet rest a o

def Store.get (σ : Store) (a : Addr) : Option HObj := memGet σ.mem a

/-- Mutate the object stored at an (allocated) address. -/
def Store.set (σ : Store) (a : Addr) (o : HObj) : Store :=
  ⟨memSet σ.mem a o, σ.next⟩

/-- Allocate a fresh object, returning the new store and its address. -/
def Store.alloc (σ : Store) (o : HObj) : Store × Addr :=
  (⟨(σ.next, o) :: σ.mem, σ.next + 1⟩, σ.next)

/-- References inside a value point strictly below `n`. -/
def hvalRefLt (n : Addr) : HVal → Prop
  | .ref a => a < n
  | _ => True

instance hvalRefLtDec (n : Addr) : (v : HVal) → Decidable (hvalRefLt n v)
  | .null => .isTrue True.intro
  | .b _ => .isTrue True.intro
  | .num _ => .isTrue True.intro
  | .str _ => .isTrue True.intro
  | .ref a => Nat.decLt a n

/-- References inside an object point strictly below `n`. -/
def hobjRefsLt (n : Addr) : HObj → Prop
  | .dict fs => ∀ p ∈ fs, hvalRefLt n p.2
  | .arr vs => ∀ v ∈ vs, hvalRefLt n v

instance hobjRefsLtDec (n : Addr) : (o : HObj) → Decidable (hobjRefsLt n o)
  | .dict fs => List.decidableBAll _ fs
  | .arr vs => List.decidableBAll _ vs

/-- References inside an object point at or above `n`. -/
def hobjRefsGe (n : Addr) : HObj → Prop
  | .dict fs => ∀ p ∈ fs, ∀ a, p.2 = HVal.ref a → n ≤ a
  | .arr vs => ∀ v ∈ vs, ∀ a, v = HVal.ref a → n ≤ a

/-- A well-formed store: every allocated address and every stored
reference lies below the allocation counter. -/
def Store.WF (σ : Store) : Prop :=
  ∀ p ∈ σ.mem, p.1 < σ.next ∧ hobjRefsLt σ.next p.2

instance storeWFDec (σ : Store) : Decidable σ.WF :=
  List.decidableBAll _ σ.mem

/-- The two stores agree on every address below `n`. -/
def storeAgreeBelow (n : Addr) (σ σ2 : Store) : Prop :=
  ∀ a, a < n → σ2.get a = σ.get a

/-- Heap extension: the counter only grows and existing addresses keep
their objects. -/
def Store.Ext (σ σ2 : Store) : Prop :=
  σ.next ≤ σ2.next ∧ storeAgreeBelow σ.next σ σ2

/-- Every object stored below `n` keeps its references below `n`. -/
def Store.ClosedBelow (σ : Store) (n : Addr) : Prop :=
  ∀ a o, σ.get a = some o → a < n → hobjRefsLt n o

/-- Everything the run allocated (at or above the entry counter of `σ`)
keeps its references at or above that entry counter and strictly below
its own address: copies and fresh objects form a tree layered above the
old heap. -/
def newPart (σ σ2 : Store) : Prop :=
  ∀ a o, σ.next ≤ a → σ2.get a = some o → hobjRefsGe σ.next o ∧ hobjRefsLt a o

/-- Reify every value of a field list with `g`, keeping the keys. -/
def reifyFieldsWith (g : HVal → Option JTree) :
    List (String × HVal) → Option (List (String × JTree))
  | [] => some []
  | (k, v) :: rest =>
      match g v, reifyFieldsWith g rest with
      | some t, some r => some ((k, t) :: r)
      | _, _ => none

/-- Reify every item of a list with `g`. -/
def reifyItemsWith (g : HVal → Option JTree) :
    List HVal → Option (List JTree)
  | [] => some []
  | v :: rest =>
      match g v, reifyItemsWith g rest with
      | some t, some r => some (t :: r)
      | _, _ => none

/-- Fuel-indexed reification of a heap value into a JSON tree; `none`
means a dangling reference or not enough fuel for the depth. -/
def reify : Nat → Store → HVal → Option JTree
  | _, _, .null => some JTree.null
  | _, _, .b v => some (JTree.bool v)
  | _, _, .num q => some (JTree.num q)
  | _, _, .str s => some (JTree.str s)
  | 0, _, .ref _ => none
  | f + 1, σ, .ref a =>
      match σ.get a with
      | none => none
      | some (.dict fs) => (reifyFieldsWith (reify f σ) fs).map JTree.obj
      | some (.arr vs) => (reifyItemsWith (reify f σ) vs).map JTree.arr

/-- Deep copy every value of a field list with `g`, threading the store
left to right and keeping the keys. -/
def deepcopyFieldsWith (g : Store → HVal → Option (Store × HVal)) :
    Store → List (String × HVal) → Option (Store × List (String × HVal))
  | σ, [] => some (σ, [])
  | σ, (k, v) :: rest =>
      match g σ v with
      | none => none
      | some (σ2, v2) =>
          match deepcopyFieldsWith g σ2 rest with
          | none => none
          | some (σ3, rest2) => some (σ3, (k, v2) :: rest2)

/-- Deep copy every item of a list with `g`, threading the store. -/
def deepcopyItemsWith (g : Store → HVal → Option (Store × HVal)) :
    Store → List HVal → Option (Store × List HVal)
  | σ, [] => some (σ, [])
  | σ, v :: rest =>
      match g σ v with
      | none => none
      | some (σ2, v2) =>
          match deepcopyItemsWith g σ2 rest with
          | none => none
          | some (σ3, rest2) => some (σ3, v2 :: rest2)

/-- Fuel-indexed `copy.deepcopy` of a heap value: primitives are kept,
references are copied bottom-up into fresh addresses. -/
def deepcopyVal : Nat → Store → HVal → Option (Store × HVal)
  | _, σ, .null => some (σ, .null)
  | _, σ, .b v => some (σ, .b v)
  | _, σ, .num q => some (σ, .num q)
  | _, σ, .str s => some (σ, .str s)
  | 0, _, .ref _ => none
  | f + 1, σ, .ref a =>
      match σ.get a with
      | none => none
      | some (.dict fs) =>
          match deepcopyFieldsWith (deepcopyVal f) σ fs with
          | none => none
          | some (σ2, fs2) =>
              let r := σ2.alloc (.dict fs2)
              some (r.1, .ref r.2)
      | some (.arr vs) =>
          match deepcopyItemsWith (deepcopyVal f) σ vs with
          | none => none
          | some (σ2, vs2) =>
              let r := σ2.alloc (.arr vs2)
              some (r.1, .ref r.2)

/-- One `out.setdefault(k, dflt)` step on the dict at address `d0`
(lines 264-266); the default is freshly allocated when the key is
missing.  On a non-dict the Python call raises, but the translation is
only applied after the dict check of the caller. -/
def storeSetdefault (σ : Store) (d0 : Addr) (k : String) (dflt : HObj) :
    Store :=
  match σ.get d0 with
  | some (.dict fs) =>
      if dictHas fs k then σ
      else
        let r := σ.alloc dflt
        (r.1).set d0 (.dict (fs ++ [(k, HVal.ref r.2)]))
  | _ => σ

/-- Lines 270-272 for one user rule object: ensure `out[cc][col]` exists
(a fresh empty dict when missing, lines 270-271) and update it field by
field with the user rules (line 272).  A non-dict at `out[cc]` or at
`out[cc][col]` raises in Python (`in`, item assignment or `.update` on
an incompatible object) and is `none` here. -/
def storeUpdateRule (σ : Store) (outcc : Addr) (col : String)
    (rulefs : List (String × HVal)) : Option Store :=
  match σ.get outcc with
  | some (.dict ccfs) =>
      match dictGet ccfs col with
      | some (.ref t) =>
          match σ.get t with
          | some (.dict tfs) =>
              some (σ.set t
                (.dict (rulefs.foldl (fun fs q => dictSet fs q.1 q.2) tfs)))
          | _ => none
      | some _ => none
      | none =>
          let r := σ.alloc
            (.dict (rulefs.foldl (fun fs q => dictSet fs q.1 q.2) []))
          some ((r.1).set outcc (.dict (dictSet ccfs col (HVal.ref r.2))))
  | _ => none

/-- The body of the `column_constraints` loop of `_merge_constraints`
for one user entry (lines 269-272): non-dict rule values are skipped by
the `isinstance` guard, and `out["column_constraints"]` is re-read from
the heap exactly as the Python expression does. -/
def mergeColStep (σa : Store) (out : Addr) (col : String) (rules : HVal) :
    Option Store :=
  match rules with
  | .ref ra =>
      match σa.get ra with
      | some (.dict rulefs) =>
          match σa.get out with
          | some (.dict outfs) =>
              match dictGet outfs "column_constraints" with
              | some (.ref outcc) => storeUpdateRule σa outcc col rulefs
              | _ => none
          | _ => none
      | _ => some σa
  | _ => some σa

/-- Lines 267-272: when `user.get("column_constraints")` is a dict,
run the per-column loop over its entries. -/
def mergeCCPhase (σ2 : Store) (out : Addr) (ufs : List (String × HVal)) :
    Option Store :=
  match dictGet ufs "column_constraints" with
  | some (.ref ucc) =>
      match σ2.get ucc with
      | some (.dict uccfs) =>
          uccfs.foldlM (fun σa p => mergeColStep σa out p.1 p.2) σ2
      | _ => some σ2
  | some _ => some σ2
  | none => some σ2

/-- One `out[k].extend(copy.deepcopy(user[k]))` step (lines 273-276),
guarded by `isinstance(user.get(k), list)`; the spliced items are the
deep copies, the temporary copied list itself is dropped. -/
def storeExtendList (fuel : Nat) (σ : Store) (user out : Addr)
    (k : String) : Option Store :=
  match σ.get user with
  | some (.dict ufs) =>
      match dictGet ufs k with
      | some (.ref ul) =>
          match σ.get ul with
          | some (.arr _) =>
              match deepcopyVal fuel σ (.ref ul) with
              | some (σ2, .ref cl) =>
                  match σ2.get cl with
                  | some (.arr citems) =>
                      match σ2.get out with
                      | some (.dict outfs) =>
                          match dictGet outfs k with
                          | some (.ref outl) =>
                              match σ2.get outl with
                              | some (.arr oitems) =>
                                  some (σ2.set outl (.arr (oitems ++ citems)))
                              | _ => none
                          | _ => none
                      | _ => none
                  | _ => none
              | _ => none
          | _ => some σ
      | some _ => some σ
      | none => some σ
  | _ => none

/-- `_merge_constraints` on the heap model (lines 261-277): deep copy of
the base, the three `setdefault` calls, the per-column update loop, then
the two list extensions; the result is the final heap and the address of
`out`.  Python run-time errors (non-dict inputs, exhausted recursion)
are `none`. -/
def mergeConstraintsStore (fuel : Nat) (σ : Store) (base user : Addr) :
    Option (Store × Addr) :=
  match deepcopyVal fuel σ (.ref base) with
  | some (σ1, .ref out) =>
      match σ1.get out with
      | some (.dict _) =>
          let σ2 := storeSetdefault (storeSetdefault (storeSetdefault σ1
            out "column_constraints" (.dict []))
            out "cross_column_constraints" (.arr []))
            out "row_group_constraints" (.arr [])
          match σ2.get user with
          | some (.dict ufs) =>
              match mergeCCPhase σ2 out ufs with
              | some σ3 =>
                  match storeExtendList fuel σ3 user out
                      "cross_column_constraints" with
                  | some σ4 =>
                      match storeExtendList fuel σ4 user out
                          "row_group_constraints" with
                      | some σ5 => some (σ5, out)
                      | none => none
                  | none => none
              | none => none
          | _ => none
      | _ => none
  | _ => none

/-- A concrete heap for the merge witness: address 0 holds the base
constraints document, address 5 the user document (the shape of
`test_merge_constraints`). -/
def sigmaW : Store :=
  ⟨[(0, .dict [("column_constraints", HVal.ref 1),
               ("cross_column_constraints", HVal.ref 3),
               ("row_group_constraints", HVal.ref 4)]),
    (1, .dict [("colA", HVal.ref 2)]),
    (2, .dict [("min", HVal.num 0)]),
    (3, .arr []),
    (4, .arr []),
    (5, .dict [("column_constraints", HVal.ref 6),
               ("cross_column_constraints", HVal.ref 8),
               ("row_group_constraints", HVal.ref 9)]),
    (6, .dict [("colA", HVal.ref 7)]),
    (7, .dict [("max", HVal.num 10)]),
    (8, .arr [HVal.str "x"]),
    (9, .arr [])], 10⟩

/-- The merge result on the concrete heap. -/
def mergeW : Option (Store × Addr) := mergeConstraintsStore 40 sigmaW 0 5

/-- The base constraints value of the merge witness. -/
def baseW : Constraints :=
  ⟨[("colA", [("min", JTree.num 0)])], [], []⟩

/-- The user constraints document of the merge witness. -/
def userW : JTree :=
  .obj [("column_constraints", .obj [("colA", .obj [("max", JTree.num 10)])]),
        ("cross_column_constraints", .arr [JTree.str "x"]),
        ("row_group_constraints", .arr [])]

/-- The per-entry step of the `column_constraints` fold of
`mergeConstraintsPure`, named for the proofs about it. -/
def mergePureStep (acc : List (String × List (String × JTree)))
    (p : String × JTree) : List (String × List (String × JTree)) :=
  match p.2 with
  | .obj rules =>
      dictSet acc p.1 (rules.foldl (fun c q => dictSet c q.1 q.2)
        ((dictGet acc p.1).getD []))
  | _ => acc

/-- The contract of one value copy: the heap only grows, the result (if
a reference) is the topmost fresh address, and everything newly
allocated keeps its references fresh and strictly below itself. -/
def dcValOk (g : Store → HVal → Option (Store × HVal)) : Prop :=
  ∀ σ v σ2 v2, Store.WF σ → g σ v = some (σ2, v2) →
    σ2.WF ∧ σ.Ext σ2 ∧
    (∀ a, v2 = HVal.ref a → σ.next ≤ a ∧ a + 1 = σ2.next) ∧
    newPart σ σ2

/-- Reference values of a field list lie at or above `n0` and avoid the
copy root `out`. -/
def fieldsRefOk (n0 out : Addr) (fs : List (String × HVal)) : Prop :=
  ∀ p ∈ fs, ∀ r, p.2 = HVal.ref r → n0 ≤ r ∧ r ≠ out

/-- Reference values of the `column_constraints` dict lie at or above
`n0` and avoid both the copy root and the dict itself. -/
def ccFieldsRefOk (n0 out occ : Addr) (fs : List (String × HVal)) : Prop :=
  ∀ p ∈ fs, ∀ r, p.2 = HVal.ref r → n0 ≤ r ∧ r ≠ out ∧ r ≠ occ

/-- The invariant carried through the mutation phase of the merge:
everything below the entry counter `n0` of the original heap `σ0` is
untouched, `out` is the copy root holding the fixed field list `outfs`,
and all reachable mutation targets stay at or above `n0`. -/
def mergeInv (σ0 : Store) (n0 out : Addr) (outfs : List (String × HVal))
    (σ : Store) : Prop :=
  σ.WF ∧ n0 ≤ σ.next ∧ storeAgreeBelow n0 σ0 σ ∧
  σ.get out = some (.dict outfs) ∧ out < σ.next ∧ n0 ≤ out ∧
  fieldsRefOk n0 out outfs ∧
  (∀ occ, dictGet outfs "column_constraints" = some (HVal.ref occ) →
    ∀ ccfs, σ.get occ = some (.dict ccfs) → ccFieldsRefOk n0 out occ ccfs)


/-! ## Association-list lemmas -/

theorem dictGet_dictSet_self {α : Type} (m : List (String × α)) (k : String)
    (v : α) : dictGet (dictSet m k v) k = some v := by
  induction m with
  | nil => simp [dictSet, dictGet]
  | cons p rest ih =>
      obtain ⟨k0, v0⟩ := p
      by_cases h : k0 = k
      · subst h
        simp [dictSet, dictGet]
      · simp [dictSet, dictGet, h, ih]

theorem dictGet_dictSet_ne {α : Type} (m : List (String × α)) (k k' : String)
    (v : α) (h : k' ≠ k) : dictGet (dictSet m k v) k' = dictGet m k' := by
  have hkk : ¬(k = k') := fun hh => h hh.symm
  induction m with
  | nil => simp [dictSet, dictGet, hkk]
  | cons p rest ih =>
      obtain ⟨k0, v0⟩ := p
      by_cases h0 : k0 = k
      · subst h0
        simp [dictSet, dictGet, hkk]
      · simp [dictSet, dictGet, h0, ih]

theorem dictGet_dictPop_self {α : Type} (m : List (String × α)) (k : String) :
    dictGet (dictPop m k) k = none := by
  induction m with
  | nil => simp [dictPop, dictGet]
  | cons p rest ih =>
      obtain ⟨k0, v0⟩ := p
      by_cases h : k0 = k
      · subst h
        simpa [dictPop] using ih
      · simpa [dictPop, dictGet, h] using ih

theorem dictGet_dictPop_ne {α : Type} (m : List (String × α)) (k k' : String)
    (h : k' ≠ k) : dictGet (dictPop m k) k' = dictGet m k' := by
  induction m with
  | nil => simp [dictPop]
  | cons p rest ih =>
      obtain ⟨k0, v0⟩ := p
      by_cases h0 : k0 = k
      · subst h0
        have : ¬(k0 = k') := fun hh => h hh.symm
        simpa [dictPop, dictGet, this] using ih
      · simp [dictPop, dictGet, h0, ih]

theorem dictGet_foldl_dictPop {α : Type} (ts : List String)
    (m : List (String × α)) (k : String) (h : k ∉ ts) :
    dictGet (ts.foldl (fun acc t => dictPop acc t) m) k = dictGet m k := by
  induction ts generalizing m with
  | nil => simp
  | cons t rest ih =>
      simp only [List.mem_cons, not_or] at h
      simpa [List.foldl_cons, ih _ h.2] using
        congrArg id (dictGet_dictPop_ne m t k h.1)

theorem dictGet_eq_none_of_not_mem {α : Type} (l : List (String × α))
    (k : String) (h : k ∉ l.map Prod.fst) : dictGet l k = none := by
  induction l with
  | nil => simp [dictGet]
  | cons p rest ih =>
      simp only [List.map_cons, List.mem_cons, not_or] at h
      have hne : ¬(p.1 = k) := fun hh => h.1 hh.symm
      simp [dictGet, hne, ih h.2]

theorem dictGet_mapVals {α β : Type} (l : List (String × α))
    (g : String → α → β) (k : String) :
    dictGet (l.map (fun p => (p.1, g p.1 p.2))) k = (dictGet l k).map (g k) := by
  induction l with
  | nil => simp [dictGet]
  | cons p rest ih =>
      obtain ⟨k0, v0⟩ := p
      by_cases h : k0 = k
      · subst h
        simp [dictGet]
      · simp [dictGet, h, ih]

theorem dictGet_filterMapVals_eq_none {α β : Type} (l : List (String × α))
    (g : String → α → Option β) (k : String) (h : k ∉ l.map Prod.fst) :
    dictGet (l.filterMap (fun p => (g p.1 p.2).map (fun v => (p.1, v)))) k =
      none := by
  induction l with
  | nil => simp [dictGet]
  | cons p rest ih =>
      obtain ⟨k0, v0⟩ := p
      simp only [List.map_cons, List.mem_cons, not_or] at h
      have hne : ¬(k0 = k) := fun hh => h.1 hh.symm
      cases hg : g k0 v0 with
      | none => simpa [List.filterMap_cons, hg] using ih h.2
      | some b =>
          simpa [List.filterMap_cons, hg, dictGet, hne] using ih h.2

theorem dictGet_filterMapVals {α β : Type} (l : List (String × α))
    (g : String → α → Option β) (k : String)
    (hnd : (l.map Prod.fst).Nodup) :
    dictGet (l.filterMap (fun p => (g p.1 p.2).map (fun v => (p.1, v)))) k =
      (dictGet l k).bind (g k) := by
  induction l with
  | nil => simp [dictGet]
  | cons p rest ih =>
      obtain ⟨k0, v0⟩ := p
      simp only [List.map_cons, List.nodup_cons] at hnd
      by_cases h : k0 = k
      · subst h
        cases hg : g k0 v0 with
        | none =>
            simpa [List.filterMap_cons, hg, dictGet] using
              dictGet_filterMapVals_eq_none rest g k0 hnd.1
        | some b => simp [List.filterMap_cons, hg, dictGet]
      · cases hg : g k0 v0 with
        | none => simpa [List.filterMap_cons, hg, dictGet, h] using ih hnd.2
        | some b =>
            simpa [List.filterMap_cons, hg, dictGet, h] using ih hnd.2

theorem dictGet_mem_keys {α : Type} (l : List (String × α)) (k : String)
    (v : α) (h : dictGet l k = some v) : k ∈ l.map Prod.fst := by
  induction l with
  | nil => simp [dictGet] at h
  | cons p rest ih =>
      obtain ⟨k0, v0⟩ := p
      by_cases h0 : k0 = k
      · subst h0
        simp
      · simp only [dictGet, h0, if_false] at h
        simp [ih h]

/-! ## Extraction lemmas for the pipeline -/

theorem classifyAll_keys (ops : PandasOps) (cfg : Config)
    (tov : List (String × JTree)) (df : List (String × Series))
    (rs : List (String × ColResult))
    (h : classifyAll ops cfg tov df = .ok rs) :
    rs.map Prod.fst = df.map Prod.fst := by
  induction df generalizing rs with
  | nil =>
      simp only [classifyAll] at h
      cases h
      simp
  | cons p rest ih =>
      simp only [classifyAll] at h
      cases hc : classifyColumn ops cfg tov p.1 p.2 with
      | error e => simp [hc, bind, Except.bind] at h
      | ok r =>
          simp only [hc, bind, Except.bind] at h
          cases hrest : classifyAll ops cfg tov rest with
          | error e => simp [hrest, bind, Except.bind] at h
          | ok rrest =>
              simp only [hrest, pure] at h
              cases h
              simpa using ih rrest hrest

theorem classifyAll_lookup (ops : PandasOps) (cfg : Config)
    (tov : List (String × JTree)) (df : List (String × Series))
    (rs : List (String × ColResult)) (c : String) (s0 : Series)
    (h : classifyAll ops cfg tov df = .ok rs)
    (hc : dictGet df c = some s0) :
    ∃ r, classifyColumn ops cfg tov c s0 = .ok r ∧ dictGet rs c = some r := by
  induction df generalizing rs with
  | nil => simp [dictGet] at hc
  | cons p rest ih =>
      obtain ⟨k0, v0⟩ := p
      simp only [classifyAll] at h
      cases hcc : classifyColumn ops cfg tov k0 v0 with
      | error e => simp [hcc, bind, Except.bind] at h
      | ok r0 =>
          simp only [hcc, bind, Except.bind] at h
          cases hrest : classifyAll ops cfg tov rest with
          | error e => simp [hrest, bind, Except.bind] at h
          | ok rrest =>
              simp only [hrest, pure] at h
              cases h
              by_cases hk : k0 = c
              · subst hk
                simp only [dictGet, if_pos rfl] at hc
                cases hc
                exact ⟨r0, hcc, by simp [dictGet]⟩
              · simp only [dictGet, hk, if_false] at hc
                obtain ⟨r, hr1, hr2⟩ := ih rrest hrest hc
                exact ⟨r, hr1, by simpa [dictGet, hk] using hr2⟩

theorem parseTypeOverrides_ok (cfg : Config)
    (tov : List (String × JTree)) (h : parseTypeOverrides cfg = .ok tov) :
    tov = cfgTypeOverrides cfg := by
  cases hct : cfg.columnTypes with
  | none => simp [parseTypeOverrides, hct] at h; simp [cfgTypeOverrides, hct, h]
  | some j =>
      cases j <;> simp [parseTypeOverrides, hct] at h <;>
        simp [cfgTypeOverrides, hct, h]

theorem runPipeline_ok_elim (ops : PandasOps) (cfg : Config) (env : Env)
    (df : List (String × Series)) (sch : SchemaOut)
    (h : runPipeline ops cfg env df = .ok sch) :
    ∃ rs ts0,
      classifyAll ops cfg (cfgTypeOverrides cfg) df = .ok rs ∧
      resolveTargetSpec ops cfg df
        (effectiveTargetCol cfg (df.map Prod.fst)) = .ok ts0 ∧
      composeSchema ops cfg env df
        (effectiveTargetCol cfg (df.map Prod.fst)) rs ts0 = .ok sch := by
  unfold runPipeline at h
  cases hp : parseTypeOverrides cfg with
  | error e => simp [hp, bind, Except.bind] at h
  | ok tov =>
      have htov := parseTypeOverrides_ok cfg tov hp
      subst htov
      simp only [hp, bind, Except.bind] at h
      cases hca : classifyAll ops cfg (cfgTypeOverrides cfg) df with
      | error e => simp [hca, bind, Except.bind] at h
      | ok rs =>
          simp only [hca, bind, Except.bind] at h
          cases hts : resolveTargetSpec ops cfg df
              (effectiveTargetCol cfg (df.map Prod.fst)) with
          | error e => simp [hts, bind, Except.bind] at h
          | ok ts0 =>
              simp only [hts] at h
              exact ⟨rs, ts0, rfl, rfl, h⟩

theorem composeSchema_ok_fields (ops : PandasOps) (cfg : Config) (env : Env)
    (df : List (String × Series)) (targetCol : Option String)
    (rs : List (String × ColResult)) (ts0 : Option JTree) (sch : SchemaOut)
    (h : composeSchema ops cfg env df targetCol rs ts0 = .ok sch) :
    sch.column_types = columnTypesOf rs ∧
    sch.public_bounds = publicBoundsOf rs ∧
    sch.datetime_spec = datetimeSpecOf rs ∧
    sch.target_col = targetCol ∧
    sch.target_spec =
      ts0.map (normalizeTargetSpecDtypes ops df (columnTypesOf rs)) ∧
    sch.provenance.guid_like_columns = guidColumnsOf rs ∧
    sch.label_domain =
      (labelPairOf cfg df targetCol (columnTypesOf rs)
        (publicCategories0Of rs)).1 ∧
    sch.public_categories =
      (if cfg.noPublishLabelDomain then
        (scrubTargets
          (ts0.map (normalizeTargetSpecDtypes ops df (columnTypesOf rs)))
          targetCol).foldl (fun acc t => dictPop acc t)
          (labelPairOf cfg df targetCol (columnTypesOf rs)
            (publicCategories0Of rs)).2
      else
        (labelPairOf cfg df targetCol (columnTypesOf rs)
          (publicCategories0Of rs)).2) := by
  unfold composeSchema at h
  cases hcf : cfg.constraintsFile with
  | none =>
      simp only [hcf, bind, Except.bind, pure] at h
      cases h
      exact ⟨rfl, rfl, rfl, rfl, rfl, rfl, rfl, rfl⟩
  | some uc =>
      cases uc <;> simp only [hcf, bind, Except.bind, pure, throw,
        throwThe, MonadExceptOf.throw] at h <;> first
      | (cases h; exact ⟨rfl, rfl, rfl, rfl, rfl, rfl, rfl, rfl⟩)
      | cases h

/-! ## Classifier characterizations -/

theorem isGuidLike_false_of_dtype (s : Series)
    (h : isStringLikeDtype s = false) (q : ℚ) :
    isGuidLikeSeries s q = false := by
  simp [isGuidLikeSeries, h]

theorem maybeParse_accepted_float (ops : PandasOps) (s : Series) (f : ℚ)
    (h : (maybeParseDatetimeLike ops s f).accepted = true) :
    (maybeParseDatetimeLike ops s f).series.dtype = PDtype.float64 ∧
      isBoolDtype s = false ∧ isIntegerDtype s = false := by
  have hbool : isBoolDtype s = false ∧ isIntegerDtype s = false := by
    cases hd : s.dtype <;>
      simp_all [maybeParseDatetimeLike, isDatetimeDtype, isTimedeltaDtype,
        isStringLikeDtype, isBoolDtype, isIntegerDtype]
  refine ⟨?_, hbool.1, hbool.2⟩
  unfold maybeParseDatetimeLike at h ⊢
  by_cases h1 : (isDatetimeDtype s || isTimedeltaDtype s) = true
  · simp [h1, seriesFromNs]
  · simp only [Bool.not_eq_true] at h1
    rw [h1] at h ⊢
    by_cases h2 : isStringLikeDtype s = true
    · simp only [h2, if_true] at h ⊢
      by_cases h3 : s.cells.isEmpty
      · simp [h3] at h
      · simp only [h3, if_false] at h ⊢
        cases hp : ops.parseDatetimeBest (sanitizeRaw s.cells) with
        | none => simp only [hp] at h; simp at h
        | some conv =>
            simp only [hp] at h
            by_cases h4 : f ≤
                ((conv.countP Option.isSome : ℕ) : ℚ) /
                  ((sanitizeRaw s.cells).length : ℚ)
            · simp [h4, seriesFromNs]
            · simp [h4] at h
    · simp only [Bool.not_eq_true] at h2
      rw [h2] at h
      simp at h

theorem isNumberLike_of_float (ops : PandasOps) (s : Series)
    (h : s.dtype = PDtype.float64) : isNumberLikeSeries ops s = true := by
  simp [isNumberLikeSeries, isNumericDtype, h]

theorem classifyColumn_guid (ops : PandasOps) (cfg : Config)
    (tov : List (String × JTree)) (c : String) (s0 : Series)
    (h : isGuidLikeSeries s0 cfg.guidMinMatchFrac = true) :
    classifyColumn ops cfg tov c s0 =
      .ok ⟨isnaMean s0, "categorical", none, none, none, true⟩ := by
  simp [classifyColumn, h, pure, Except.pure]

theorem classifyColumn_bool (ops : PandasOps) (cfg : Config)
    (tov : List (String × JTree)) (c : String) (s0 : Series)
    (hb : isBoolDtype s0 = true) (hov : dictGet tov c = none) :
    classifyColumn ops cfg tov c s0 =
      .ok ⟨isnaMean s0, "ordinal", some ["0", "1"], none, none, false⟩ := by
  have hsl : isStringLikeDtype s0 = false := by
    cases hd : s0.dtype <;> simp_all [isBoolDtype, isStringLikeDtype]
  have hguid := isGuidLike_false_of_dtype s0 hsl cfg.guidMinMatchFrac
  simp [classifyColumn, hguid, overrideFor, hov, hb, bind, Except.bind,
    pure, Except.pure]

theorem classifyColumn_datetime (ops : PandasOps) (cfg : Config)
    (tov : List (String × JTree)) (c : String) (s0 : Series)
    (hguid : isGuidLikeSeries s0 cfg.guidMinMatchFrac = false)
    (hdt : cfg.inferDatetimes = true)
    (hacc :
      (maybeParseDatetimeLike ops s0 cfg.datetimeMinParseFrac).accepted = true)
    (hov : dictGet tov c = none) :
    classifyColumn ops cfg tov c s0 =
      .ok ⟨isnaMean s0, "integer", none,
        some (boundsForNumberLike ops
          (maybeParseDatetimeLike ops s0 cfg.datetimeMinParseFrac).series
          cfg.padFracIntegerEff true),
        some (mkDtSpec cfg
          (maybeParseDatetimeLike ops s0 cfg.datetimeMinParseFrac).fmtHint),
        false⟩ := by
  obtain ⟨hfloat, hbool, _⟩ :=
    maybeParse_accepted_float ops s0 cfg.datetimeMinParseFrac hacc
  have hnum := isNumberLike_of_float ops _ hfloat
  simp [classifyColumn, hguid, hdt, overrideFor, hov, hbool, hnum, hacc,
    bind, Except.bind, pure, Except.pure]

theorem dictGet_columnTypesOf (rs : List (String × ColResult)) (c : String) :
    dictGet (columnTypesOf rs) c = (dictGet rs c).map ColResult.ctype :=
  dictGet_mapVals rs (fun _ r => r.ctype) c

theorem dictGet_publicBoundsOf (rs : List (String × ColResult)) (c : String)
    (hnd : (rs.map Prod.fst).Nodup) :
    dictGet (publicBoundsOf rs) c = (dictGet rs c).bind ColResult.bounds :=
  dictGet_filterMapVals rs (fun _ r => r.bounds) c hnd

theorem dictGet_datetimeSpecOf (rs : List (String × ColResult)) (c : String)
    (hnd : (rs.map Prod.fst).Nodup) :
    dictGet (datetimeSpecOf rs) c = (dictGet rs c).bind ColResult.dtspec :=
  dictGet_filterMapVals rs (fun _ r => r.dtspec) c hnd

theorem dictGet_publicCategories0Of (rs : List (String × ColResult))
    (c : String) (hnd : (rs.map Prod.fst).Nodup) :
    dictGet (publicCategories0Of rs) c = (dictGet rs c).bind ColResult.cats :=
  dictGet_filterMapVals rs (fun _ r => r.cats) c hnd

theorem labelPairOf_snd_lookup (cfg : Config) (df : List (String × Series))
    (targetCol : Option String) (columnTypes : List (String × String))
    (pc0 : List (String × List String)) (c : String)
    (h : targetCol ≠ some c) :
    dictGet (labelPairOf cfg df targetCol columnTypes pc0).2 c =
      dictGet pc0 c := by
  cases targetCol with
  | none => rfl
  | some tc =>
      have hne : c ≠ tc := fun hh => h (by rw [hh])
      simp only [labelPairOf]
      split_ifs <;>
        simp [dictGet_dictSet_ne pc0 tc c _ hne]

theorem dictGet_mem {α : Type} (l : List (String × α)) (k : String) (v : α)
    (h : dictGet l k = some v) : (k, v) ∈ l := by
  induction l with
  | nil => simp [dictGet] at h
  | cons p rest ih =>
      obtain ⟨k0, v0⟩ := p
      by_cases hk : k0 = k
      · subst hk
        simp only [dictGet, if_pos rfl] at h
        cases h
        simp

      · simp only [dictGet, hk, if_false] at h
        simp [ih h]

theorem mem_guidColumnsOf (rs : List (String × ColResult)) (c : String)
    (r : ColResult) (h : dictGet rs c = some r) (hg : r.guid = true) :
    c ∈ guidColumnsOf rs := by
  have hmem := dictGet_mem rs c r h
  exact List.mem_map.mpr ⟨(c, r), List.mem_filter.mpr ⟨hmem, by simp [hg]⟩, rfl⟩

/-! ## Claim theorems -/

/-- C10: classification of a GUID-like column short-circuits every later
stage: its dtype is categorical, it never receives a `datetime_spec`
entry (even with datetime inference enabled), it never appears in
`public_bounds`, it is recorded in the provenance identifier list, and
any user column-type override for it — valid or invalid — is silently
ignored rather than applied or rejected (the per-column classification
succeeds with the same result for every override document). -/
theorem guid_short_circuit (ops : PandasOps) (cfg : Config) (env : Env)
    (df : List (String × Series)) (sch : SchemaOut) (c : String)
    (s0 : Series)
    (hrun : runPipeline ops cfg env df = .ok sch)
    (hnd : (df.map Prod.fst).Nodup)
    (hc : dictGet df c = some s0)
    (hguid : isGuidLikeSeries s0 cfg.guidMinMatchFrac = true) :
    dictGet sch.column_types c = some "categorical" ∧
    dictGet sch.datetime_spec c = none ∧
    dictGet sch.public_bounds c = none ∧
    c ∈ sch.provenance.guid_like_columns ∧
    ∀ tov, classifyColumn ops cfg tov c s0 =
      .ok ⟨isnaMean s0, "categorical", none, none, none, true⟩ := by
  obtain ⟨rs, ts0, hca, hts, hcomp⟩ :=
    runPipeline_ok_elim ops cfg env df sch hrun
  obtain ⟨hct, hpb, hds, htcol, htspec, hglc, hld, hpc⟩ :=
    composeSchema_ok_fields ops cfg env df _ rs ts0 sch hcomp
  have hndrs : (rs.map Prod.fst).Nodup := by
    rw [classifyAll_keys ops cfg _ df rs hca]
    exact hnd
  obtain ⟨r, hr, hlook⟩ := classifyAll_lookup ops cfg _ df rs c s0 hca hc
  rw [classifyColumn_guid ops cfg (cfgTypeOverrides cfg) c s0 hguid] at hr
  injection hr with hr
  subst hr
  refine ⟨?_, ?_, ?_, ?_, fun tov => classifyColumn_guid ops cfg tov c s0 hguid⟩
  · rw [hct, dictGet_columnTypesOf, hlook]
    rfl
  · rw [hds, dictGet_datetimeSpecOf rs c hndrs, hlook]
    rfl
  · rw [hpb, dictGet_publicBoundsOf rs c hndrs, hlook]
    rfl
  · rw [hglc]
    exact mem_guidColumnsOf rs c _ hlook rfl

/-- Witness for C10 on a concrete run: the GUID id column of
`dfGuidPlain` is categorical, has no datetime entry and no bounds, and is
listed as an identifier. -/
theorem guid_short_circuit_witness :
    dictGet (runOrDefault
      (runPipeline demoOps cfgTargetOnly {} dfGuidPlain)).column_types "id" =
        some "categorical" ∧
    dictGet (runOrDefault
      (runPipeline demoOps cfgTargetOnly {} dfGuidPlain)).datetime_spec "id" =
        none ∧
    dictGet (runOrDefault
      (runPipeline demoOps cfgTargetOnly {} dfGuidPlain)).public_bounds "id" =
        none ∧
    "id" ∈ (runOrDefault (runPipeline demoOps cfgTargetOnly {}
      dfGuidPlain)).provenance.guid_like_columns := by
  have h := guid_short_circuit demoOps cfgTargetOnly {} dfGuidPlain
    (runOrDefault (runPipeline demoOps cfgTargetOnly {} dfGuidPlain)) "id"
    ⟨PDtype.object, [Cell.s uuidA, Cell.s uuidB]⟩ rfl (by decide) rfl
    (by decide)
  exact ⟨h.1, h.2.1, h.2.2.1, h.2.2.2.1⟩

/-- C4 (amended): a column accepted by datetime detection and not subject
to a user column-type override is typed integer in the output — never
ordinal, in particular the binary-domain collapse cannot fire for it no
matter which flags are set — and it receives a `datetime_spec` entry with
storage `epoch_ns` and timezone UTC. -/
theorem datetime_column_integer (ops : PandasOps) (cfg : Config) (env : Env)
    (df : List (String × Series)) (sch : SchemaOut) (c : String)
    (s0 : Series)
    (hrun : runPipeline ops cfg env df = .ok sch)
    (hnd : (df.map Prod.fst).Nodup)
    (hc : dictGet df c = some s0)
    (hguid : isGuidLikeSeries s0 cfg.guidMinMatchFrac = false)
    (hdt : cfg.inferDatetimes = true)
    (hacc :
      (maybeParseDatetimeLike ops s0 cfg.datetimeMinParseFrac).accepted = true)
    (hov : dictGet (cfgTypeOverrides cfg) c = none) :
    dictGet sch.column_types c = some "integer" ∧
    dictGet sch.column_types c ≠ some "ordinal" ∧
    ∃ ds, dictGet sch.datetime_spec c = some ds ∧
      ds.storage = "epoch_ns" ∧ ds.timezone = "UTC" := by
  obtain ⟨rs, ts0, hca, hts, hcomp⟩ :=
    runPipeline_ok_elim ops cfg env df sch hrun
  obtain ⟨hct, hpb, hds, htcol, htspec, hglc, hld, hpc⟩ :=
    composeSchema_ok_fields ops cfg env df _ rs ts0 sch hcomp
  have hndrs : (rs.map Prod.fst).Nodup := by
    rw [classifyAll_keys ops cfg _ df rs hca]
    exact hnd
  obtain ⟨r, hr, hlook⟩ := classifyAll_lookup ops cfg _ df rs c s0 hca hc
  rw [classifyColumn_datetime ops cfg (cfgTypeOverrides cfg) c s0 hguid hdt
    hacc hov] at hr
  injection hr with hr
  subst hr
  refine ⟨?_, ?_, ?_⟩
  · rw [hct, dictGet_columnTypesOf, hlook]
    rfl
  · rw [hct, dictGet_columnTypesOf, hlook]
    simp
  · refine ⟨mkDtSpec cfg
      (maybeParseDatetimeLike ops s0 cfg.datetimeMinParseFrac).fmtHint,
      ?_, rfl, rfl⟩
    rw [hds, dictGet_datetimeSpecOf rs c hndrs, hlook]
    rfl

/-- Witness for C4 on a concrete run with both datetime inference and
binary-domain collapse enabled and two-valued encoded dates. -/
theorem datetime_column_integer_witness :
    dictGet (runOrDefault
      (runPipeline demoOps cfgDtBinary {} dfDates)).column_types "time" =
        some "integer" ∧
    ∃ ds, dictGet (runOrDefault
      (runPipeline demoOps cfgDtBinary {} dfDates)).datetime_spec "time" =
        some ds ∧ ds.storage = "epoch_ns" ∧ ds.timezone = "UTC" := by
  have h := datetime_column_integer demoOps cfgDtBinary {} dfDates
    (runOrDefault (runPipeline demoOps cfgDtBinary {} dfDates)) "time"
    ⟨PDtype.object,
     [Cell.s "2023-01-01", Cell.s "2023-01-02", Cell.s "2023-01-01"]⟩
    rfl (by decide) rfl (by decide) (by decide) (by decide) rfl
  exact ⟨h.1, h.2.2⟩

/-- Counterexample to C4 as stated: with a user column-type override
`time: ordinal`, the date column is accepted by datetime detection (it
gets a `datetime_spec` entry) yet its published dtype is ordinal. -/
theorem datetime_column_override_counterexample :
    (maybeParseDatetimeLike demoOps
      ⟨PDtype.object,
       [Cell.s "2023-01-01", Cell.s "2023-01-02", Cell.s "2023-01-01"]⟩
      cfgDtOverride.datetimeMinParseFrac).accepted = true ∧
    cfgDtOverride.inferDatetimes = true ∧
    dictGet (runOrDefault
      (runPipeline demoOps cfgDtOverride {} dfDates)).column_types "time" =
        some "ordinal" ∧
    (dictGet (runOrDefault
      (runPipeline demoOps cfgDtOverride {} dfDates)).datetime_spec
        "time").isSome = true := by
  refine ⟨by decide, rfl, by decide, by decide⟩

/-- C5 (amended): a native boolean-typed column that is not the effective
target column and is not scrubbed by label-domain suppression, and has no
user column-type override, is published as ordinal with category domain
exactly `["0", "1"]` and never appears in `public_bounds`, for every
setting of the inference flags. -/
theorem bool_column_ordinal (ops : PandasOps) (cfg : Config) (env : Env)
    (df : List (String × Series)) (sch : SchemaOut) (c : String)
    (s0 : Series)
    (hrun : runPipeline ops cfg env df = .ok sch)
    (hnd : (df.map Prod.fst).Nodup)
    (hc : dictGet df c = some s0)
    (hb : isBoolDtype s0 = true)
    (hov : dictGet (cfgTypeOverrides cfg) c = none)
    (htc : sch.target_col ≠ some c)
    (hscrub : c ∉ scrubTargets sch.target_spec sch.target_col) :
    dictGet sch.column_types c = some "ordinal" ∧
    dictGet sch.public_categories c = some ["0", "1"] ∧
    dictGet sch.public_bounds c = none := by
  obtain ⟨rs, ts0, hca, hts, hcomp⟩ :=
    runPipeline_ok_elim ops cfg env df sch hrun
  obtain ⟨hct, hpb, hds, htcol, htspec, hglc, hld, hpc⟩ :=
    composeSchema_ok_fields ops cfg env df _ rs ts0 sch hcomp
  have hndrs : (rs.map Prod.fst).Nodup := by
    rw [classifyAll_keys ops cfg _ df rs hca]
    exact hnd
  obtain ⟨r, hr, hlook⟩ := classifyAll_lookup ops cfg _ df rs c s0 hca hc
  rw [classifyColumn_bool ops cfg (cfgTypeOverrides cfg) c s0 hb hov] at hr
  injection hr with hr
  subst hr
  rw [htcol] at htc
  rw [htspec, htcol] at hscrub
  have hcats : dictGet (publicCategories0Of rs) c = some ["0", "1"] := by
    rw [dictGet_publicCategories0Of rs c hndrs, hlook]
    rfl
  refine ⟨?_, ?_, ?_⟩
  · rw [hct, dictGet_columnTypesOf, hlook]
    rfl
  · rw [hpc]
    cases hnp : cfg.noPublishLabelDomain with
    | false =>
        simp only [hnp, Bool.false_eq_true, if_false]
        rw [labelPairOf_snd_lookup cfg df _ _ _ c htc]
        exact hcats
    | true =>
        simp only [hnp, if_true]
        rw [dictGet_foldl_dictPop _ _ _ hscrub,
          labelPairOf_snd_lookup cfg df _ _ _ c htc]
        exact hcats
  · rw [hpb, dictGet_publicBoundsOf rs c hndrs, hlook]
    rfl

/-- Witness for C5 on a concrete run: the non-target boolean column of
`dfBoolPlain`. -/
theorem bool_column_ordinal_witness :
    dictGet (runOrDefault
      (runPipeline demoOps cfgTargetOnly {} dfBoolPlain)).column_types
        "is_active" = some "ordinal" ∧
    dictGet (runOrDefault
      (runPipeline demoOps cfgTargetOnly {} dfBoolPlain)).public_categories
        "is_active" = some ["0", "1"] ∧
    dictGet (runOrDefault
      (runPipeline demoOps cfgTargetOnly {} dfBoolPlain)).public_bounds
        "is_active" = none := by
  exact bool_column_ordinal demoOps cfgTargetOnly {} dfBoolPlain
    (runOrDefault (runPipeline demoOps cfgTargetOnly {} dfBoolPlain))
    "is_active" ⟨PDtype.bool, [Cell.b true, Cell.b false, Cell.b true]⟩
    rfl (by decide) rfl rfl rfl (by decide) (by decide)

/-- Counterexample to C5 as stated: a native boolean column named
`target` is the inferred primary target; the label-domain publication
path overwrites its published category domain with `["False", "True"]`,
not `["0", "1"]`. -/
theorem bool_column_target_counterexample :
    dictGet (runOrDefault
      (runPipeline demoOps {} {} dfBoolTarget)).column_types "target" =
        some "ordinal" ∧
    dictGet (runOrDefault
      (runPipeline demoOps {} {} dfBoolTarget)).public_categories "target" =
        some ["False", "True"] ∧
    some ["False", "True"] ≠ some ["0", "1"] := by
  refine ⟨by decide, by decide, by decide⟩

/-- C1 (code bug): the GUID no-leak invariant fails when the GUID-like
column is the (inferred) target column.  On `dfGuidTarget` the column
`target` is classified GUID-like — dtype categorical, listed in the
provenance identifier list — yet the label-domain publication path
(lines 488-495) enumerates its UUID values into `public_categories`. -/
theorem guid_target_label_leak :
    dictGet (runOrDefault
      (runPipeline demoOps {} {} dfGuidTarget)).column_types "target" =
        some "categorical" ∧
    (runOrDefault
      (runPipeline demoOps {} {} dfGuidTarget)).provenance.guid_like_columns =
        ["target"] ∧
    dictGet (runOrDefault
      (runPipeline demoOps {} {} dfGuidTarget)).public_categories "target" =
        some [uuidA, uuidB] ∧
    isGuidLikeSeries ⟨PDtype.object, [Cell.s uuidA, Cell.s uuidB]⟩
      (Config.guidMinMatchFrac {}) = true := by
  refine ⟨by decide, by decide, by decide, by decide⟩

/-- C3 (amended): every successfully written schema document has the
fixed key set `schemaBaseKeys ++ ["constraints"]`, with `target_spec`
inserted (before `constraints`) exactly when a target spec was produced;
every other Schema-entity key is always present, absent features being
rendered as empty mappings/lists rather than omitted keys. -/
theorem schema_stable_keys (ops : PandasOps) (cfg : Config) (env : Env)
    (df : List (String × Series)) (sch : SchemaOut)
    (hrun : runPipeline ops cfg env df = .ok sch) :
    schemaKeys sch = schemaBaseKeys ++
      (if sch.target_spec.isSome then ["target_spec"] else []) ++
      ["constraints"] ∧
    ("target_spec" ∈ schemaKeys sch ↔ sch.target_spec.isSome = true) ∧
    (∀ k ∈ schemaBaseKeys, k ∈ schemaKeys sch) ∧
    "constraints" ∈ schemaKeys sch := by
  refine ⟨?_, ?_, ?_, ?_⟩ <;>
    cases h : sch.target_spec <;>
      simp [schemaKeys, schemaJsonFields, schemaBaseKeys, h]

/-- Witness for C3 on a concrete run that produces a target spec. -/
theorem schema_stable_keys_witness :
    schemaKeys (runOrDefault (runPipeline demoOps cfgTargetOnly {}
      dfBoolPlain)) =
      schemaBaseKeys ++
        (if (runOrDefault (runPipeline demoOps cfgTargetOnly {}
          dfBoolPlain)).target_spec.isSome then ["target_spec"] else []) ++
        ["constraints"] :=
  (schema_stable_keys demoOps cfgTargetOnly {} dfBoolPlain
    (runOrDefault (runPipeline demoOps cfgTargetOnly {} dfBoolPlain)) rfl).1

/-- Counterexample to C3 as stated: a run with no target produces a
schema document without the `target_spec` key, so the key set is not
independent of which inference paths fired. -/
theorem target_spec_key_omitted_counterexample :
    (runPipeline demoOps {} {} dfNoTarget).map schemaKeys =
      .ok ["schema_version", "dataset", "target_col", "label_domain",
           "missing_value_rates", "public_bounds", "public_categories",
           "column_types", "datetime_spec", "provenance", "constraints"] ∧
    "target_spec" ∉
      ["schema_version", "dataset", "target_col", "label_domain",
       "missing_value_rates", "public_bounds", "public_categories",
       "column_types", "datetime_spec", "provenance", "constraints"] := by
  refine ⟨rfl, by decide⟩

/-- C7 (amended): in the absence of a `--target-spec-file`, a run where
exactly one of the survival event/time columns is supplied always aborts
with `SystemExit` (a non-zero exit), modelled as an `.error` result; the
schema write sits after every abort point of `main`, so no output —
partial or whole — is produced. -/
theorem partial_survival_aborts (ops : PandasOps) (cfg : Config) (env : Env)
    (df : List (String × Series))
    (hfile : cfg.targetSpecFile = none)
    (hxor : optStrTruthy cfg.survivalEventCol ≠
      optStrTruthy cfg.survivalTimeCol) :
    ∃ e, runPipeline ops cfg env df = .error e := by
  have hone : (optStrTruthy cfg.survivalEventCol ||
      optStrTruthy cfg.survivalTimeCol) = true := by
    cases he : optStrTruthy cfg.survivalEventCol <;>
      cases ht : optStrTruthy cfg.survivalTimeCol <;> simp_all
  have hboth : (optStrTruthy cfg.survivalEventCol &&
      optStrTruthy cfg.survivalTimeCol) = false := by
    cases he : optStrTruthy cfg.survivalEventCol <;>
      cases ht : optStrTruthy cfg.survivalTimeCol <;> simp_all
  have hres : ∀ tc, resolveTargetSpec ops cfg df tc =
      .error
        "Both --survival-event-col and --survival-time-col must be provided together" := by
    intro tc
    unfold resolveTargetSpec
    rw [hfile]
    simp [hboth, hone]
  unfold runPipeline
  cases hp : parseTypeOverrides cfg with
  | error e => exact ⟨e, by simp [hp, bind, Except.bind]⟩
  | ok tov =>
      cases hca : classifyAll ops cfg tov df with
      | error e => exact ⟨e, by simp [hp, hca, bind, Except.bind]⟩
      | ok rs =>
          refine
            ⟨"Both --survival-event-col and --survival-time-col must be provided together",
             ?_⟩
          simp [hp, hca, hres, bind, Except.bind]

/-- Witness for C7: a concrete run with only the event column supplied
aborts. -/
theorem partial_survival_aborts_witness :
    runPipeline demoOps { survivalEventCol := some "event" } {} dfNoTarget =
      .error
        "Both --survival-event-col and --survival-time-col must be provided together" := by
  obtain ⟨e, he⟩ := partial_survival_aborts demoOps
    { survivalEventCol := some "event" } {} dfNoTarget rfl (by decide)
  rw [he]
  have : Except.error (ε := String) (α := SchemaOut) e =
      runPipeline demoOps { survivalEventCol := some "event" } {}
        dfNoTarget := he.symm
  rw [this]
  rfl

/-- Counterexample to C7 as stated: when a `--target-spec-file` is also
given, the externally supplied spec wins and the partial survival flag is
silently ignored — the run completes and writes a schema. -/
theorem partial_survival_with_spec_file_counterexample :
    optStrTruthy cfgSurvivalPartialFile.survivalEventCol = true ∧
    optStrTruthy cfgSurvivalPartialFile.survivalTimeCol = false ∧
    (runPipeline demoOps cfgSurvivalPartialFile {} dfNoTarget).map
      (fun s => s.schema_version) = .ok "1.3.0" := by
  refine ⟨rfl, rfl, rfl⟩

/-- C2 (amended): (i) every target spec constructed from the survival
event/time flag pair has exactly the two flag columns as its targets;
(ii) for every target_spec with kind survival_pair whose targets list
has at least two entries, `_build_constraints` emits exactly one
survival_pair cross-column record naming the first two target columns —
with event allowed values `[0, 1]` and the strictly-positive time marker
`time_min_exclusive = 0` — and simultaneously tightens the per-column
constraints: the event column's entry gets `allowed_values ["0","1"]`
and the time column's entry gets `min_exclusive 0`, so the cross-column
record and the per-column tightening agree.  (As stated the claim fails:
a survival_pair spec with three targets is constructible via
`--target-cols` plus `--target-kind`.) -/
theorem survival_pair_constraints_spec :
    (∀ (ops : PandasOps) (cfg : Config) (df : List (String × Series))
       (tcol : Option String) (ts : JTree),
       cfg.targetSpecFile = none →
       optStrTruthy cfg.survivalEventCol = true →
       optStrTruthy cfg.survivalTimeCol = true →
       resolveTargetSpec ops cfg df tcol = .ok (some ts) →
       jGet ts "targets" = some (.arr
         [.str (cfg.survivalEventCol.getD ""),
          .str (cfg.survivalTimeCol.getD "")])) ∧
    (∀ (columnTypes : List (String × String))
       (pc : List (String × List String)) (pb : List (String × List ℚ))
       (guids : List String) (ts ev tm : JTree) (rest : List JTree),
       jToPyStr ((jGet ts "kind").getD JTree.null) = "survival_pair" →
       jGet ts "targets" = some (.arr (ev :: tm :: rest)) →
       (buildConstraints columnTypes pc pb guids
         (some ts)).cross_column_constraints =
         [survivalCrossRecord (jToPyStr ev) (jToPyStr tm)] ∧
       (dictGet (buildConstraints columnTypes pc pb guids
           (some ts)).column_constraints (jToPyStr ev)).bind
         (fun rules => dictGet rules "allowed_values") =
         some (.arr [.str "0", .str "1"]) ∧
       (dictGet (buildConstraints columnTypes pc pb guids
           (some ts)).column_constraints (jToPyStr tm)).bind
         (fun rules => dictGet rules "min_exclusive") =
         some (.num 0)) := by
  constructor
  · intro ops cfg df tcol ts hfile hev htm hres
    unfold resolveTargetSpec at hres
    rw [hfile] at hres
    simp only [hev, htm, Bool.and_self, if_true, Bool.true_and] at hres
    injection hres with hres
    injection hres with hres
    subst hres
    rfl
  · intro columnTypes pc pb guids ts ev tm rest hkind htargets
    have hsurv : survivalPairOf (some ts) = some (jToPyStr ev, jToPyStr tm) := by
      simp [survivalPairOf, hkind, htargets]
    refine ⟨?_, ?_, ?_⟩
    · simp [buildConstraints, hsurv]
    · simp only [buildConstraints, hsurv]
      by_cases hte : jToPyStr tm = jToPyStr ev
      · rw [hte]
        simp only [dictGet_dictSet_self, Option.some_bind, Option.getD_some]
        rw [dictGet_dictSet_ne _ "min_exclusive" "allowed_values" _
          (by decide)]
        simp only [dictGet_dictSet_self]
      · rw [dictGet_dictSet_ne _ (jToPyStr tm) (jToPyStr ev) _
          (fun hh => hte hh.symm)]
        simp only [dictGet_dictSet_self, Option.some_bind, Option.getD_some]
    · simp only [buildConstraints, hsurv]
      simp only [dictGet_dictSet_self, Option.some_bind, Option.getD_some]

/-- Witness for C2 at concrete inputs: the survival flag pair builds a
two-target spec, and `_build_constraints` on it produces the agreeing
cross-column and per-column survival constraints. -/
theorem survival_pair_constraints_spec_witness :
    jGet (mkFlagTargetSpec demoOps dfNoTarget ["event", "time"]
      "survival_pair" none) "targets" =
      some (.arr [.str "event", .str "time"]) ∧
    (buildConstraints [("event", "integer"), ("time", "integer")] [] [] []
      (some (mkFlagTargetSpec demoOps dfNoTarget ["event", "time"]
        "survival_pair" none))).cross_column_constraints =
      [survivalCrossRecord "event" "time"] ∧
    (dictGet (buildConstraints [("event", "integer"), ("time", "integer")]
        [] [] [] (some (mkFlagTargetSpec demoOps dfNoTarget
          ["event", "time"] "survival_pair" none))).column_constraints
      "event").bind (fun rules => dictGet rules "allowed_values") =
      some (.arr [.str "0", .str "1"]) := by
  have h1 := survival_pair_constraints_spec.1 demoOps cfgSurvivalBoth
    dfNoTarget none
    (mkFlagTargetSpec demoOps dfNoTarget ["event", "time"] "survival_pair"
      none) rfl rfl rfl rfl
  have h2 := survival_pair_constraints_spec.2
    [("event", "integer"), ("time", "integer")] [] [] []
    (mkFlagTargetSpec demoOps dfNoTarget ["event", "time"] "survival_pair"
      none) (.str "event") (.str "time") [] rfl rfl
  exact ⟨h1, h2.1, h2.2.1⟩

/-- Counterexample to C2 as stated: `--target-cols a,b,c` together with
`--target-kind survival_pair` yields a target_spec with kind
survival_pair whose targets list has three entries, not two. -/
theorem survival_pair_three_targets_counterexample :
    (runPipeline demoOps cfgThreeTargets {} dfNoTarget).map (fun s =>
      s.target_spec.map (fun ts =>
        (jToPyStr ((jGet ts "kind").getD JTree.null),
         match jGet ts "targets" with
         | some (.arr l) => l.length
         | _ => 0))) = .ok (some ("survival_pair", 3)) := rfl

theorem foldl_min_mem (t : List ℚ) : ∀ h : ℚ, t.foldl min h ∈ h :: t := by
  induction t with
  | nil => intro h; simp
  | cons a t' ih =>
      intro h
      simp only [List.foldl_cons]
      rcases List.mem_cons.mp (ih (min h a)) with h1 | h1
      · rcases min_choice h a with hc | hc <;> rw [h1, hc] <;> simp
      · simp [h1]

theorem foldl_min_le (t : List ℚ) :
    ∀ h v : ℚ, v ∈ h :: t → t.foldl min h ≤ v := by
  induction t with
  | nil =>
      intro h v hv
      simp only [List.mem_singleton] at hv
      simp [hv]
  | cons a t' ih =>
      intro h v hv
      simp only [List.foldl_cons]
      rcases List.mem_cons.mp hv with hveq | hv'
      · subst hveq
        exact le_trans (ih (min v a) (min v a) (List.mem_cons_self _ _))
          (min_le_left _ _)
      · rcases List.mem_cons.mp hv' with hveq | hv''
        · subst hveq
          exact le_trans (ih (min h v) (min h v) (List.mem_cons_self _ _))
            (min_le_right _ _)
        · exact ih (min h a) v (List.mem_cons_of_mem _ hv'')

theorem foldl_max_mem (t : List ℚ) : ∀ h : ℚ, t.foldl max h ∈ h :: t := by
  induction t with
  | nil => intro h; simp
  | cons a t' ih =>
      intro h
      simp only [List.foldl_cons]
      rcases List.mem_cons.mp (ih (max h a)) with h1 | h1
      · rcases max_choice h a with hc | hc <;> rw [h1, hc] <;> simp
      · simp [h1]

theorem foldl_le_max (t : List ℚ) :
    ∀ h v : ℚ, v ∈ h :: t → v ≤ t.foldl max h := by
  induction t with
  | nil =>
      intro h v hv
      simp only [List.mem_singleton] at hv
      simp [hv]
  | cons a t' ih =>
      intro h v hv
      simp only [List.foldl_cons]
      rcases List.mem_cons.mp hv with hveq | hv'
      · subst hveq
        exact le_trans (le_max_left _ _)
          (ih (max v a) (max v a) (List.mem_cons_self _ _))
      · rcases List.mem_cons.mp hv' with hveq | hv''
        · subst hveq
          exact le_trans (le_max_right _ _)
            (ih (max h v) (max h v) (List.mem_cons_self _ _))
        · exact ih (max h a) v (List.mem_cons_of_mem _ hv'')

theorem padSpec_nonneg (padFrac vmin vmax : ℚ) (hp : 0 ≤ padFrac)
    (hle : vmin ≤ vmax) : 0 ≤ padSpec padFrac vmin vmax := by
  unfold padSpec
  split_ifs with h1 h2
  · exact mul_nonneg hp (by linarith)
  · exact le_trans zero_le_one (le_max_right _ _)
  · exact le_refl 0

/-- C8 (amended): bounds are computed only over the numerically coerced
finite values; an empty finite set yields the default unit range
`[0, 1]`; otherwise the result is `[vmin - pad, vmax + pad]` for the true
minimum/maximum and the spec's padding rule (`pad_frac·(max−min)` under
spread, `max(|min|·pad_frac, 1)`-or-0 for constant columns), with
integer-typed bounds floored/ceiled after padding; and whenever
`pad_frac ≥ 0` the returned pair satisfies `lo ≤ min` and `hi ≥ max`
(with a negative `pad_frac` the containment fails, see the
counterexample). -/
theorem bounds_for_number_like_spec (ops : PandasOps) (s : Series)
    (padFrac : ℚ) (integerLike : Bool) :
    (s.cells.filterMap (toNumericCell ops) = [] →
       boundsForNumberLike ops s padFrac integerLike = [0, 1]) ∧
    (s.cells.filterMap (toNumericCell ops) ≠ [] →
       (listMin (s.cells.filterMap (toNumericCell ops)) ∈
          s.cells.filterMap (toNumericCell ops) ∧
        listMax (s.cells.filterMap (toNumericCell ops)) ∈
          s.cells.filterMap (toNumericCell ops) ∧
        ∀ v ∈ s.cells.filterMap (toNumericCell ops),
          listMin (s.cells.filterMap (toNumericCell ops)) ≤ v ∧
          v ≤ listMax (s.cells.filterMap (toNumericCell ops))) ∧
       boundsForNumberLike ops s padFrac integerLike =
         (if integerLike then
           [((⌊listMin (s.cells.filterMap (toNumericCell ops)) -
               padSpec padFrac
                 (listMin (s.cells.filterMap (toNumericCell ops)))
                 (listMax (s.cells.filterMap (toNumericCell ops)))⌋ : Int) : ℚ),
            ((⌈listMax (s.cells.filterMap (toNumericCell ops)) +
               padSpec padFrac
                 (listMin (s.cells.filterMap (toNumericCell ops)))
                 (listMax (s.cells.filterMap (toNumericCell ops)))⌉ : Int) : ℚ)]
          else
           [listMin (s.cells.filterMap (toNumericCell ops)) -
              padSpec padFrac
                (listMin (s.cells.filterMap (toNumericCell ops)))
                (listMax (s.cells.filterMap (toNumericCell ops))),
            listMax (s.cells.filterMap (toNumericCell ops)) +
              padSpec padFrac
                (listMin (s.cells.filterMap (toNumericCell ops)))
                (listMax (s.cells.filterMap (toNumericCell ops)))]) ∧
       (0 ≤ padFrac →
         ∀ lo hi, boundsForNumberLike ops s padFrac integerLike = [lo, hi] →
           ∀ v ∈ s.cells.filterMap (toNumericCell ops),
             lo ≤ v ∧ v ≤ hi)) := by
  constructor
  · intro hx
    simp [boundsForNumberLike, hx]
  · intro hx
    obtain ⟨h, t, hcons⟩ : ∃ h t,
        s.cells.filterMap (toNumericCell ops) = h :: t := by
      cases hxx : s.cells.filterMap (toNumericCell ops) with
      | nil => exact absurd hxx hx
      | cons a l => exact ⟨a, l, rfl⟩
    have hminmem : listMin (h :: t) ∈ h :: t := foldl_min_mem t h
    have hmaxmem : listMax (h :: t) ∈ h :: t := foldl_max_mem t h
    have hminle : ∀ v ∈ h :: t, listMin (h :: t) ≤ v :=
      fun v hv => foldl_min_le t h v hv
    have hmaxge : ∀ v ∈ h :: t, v ≤ listMax (h :: t) :=
      fun v hv => foldl_le_max t h v hv
    have hminmax : listMin (h :: t) ≤ listMax (h :: t) :=
      le_trans (hminle h (List.mem_cons_self _ _))
        (hmaxge h (List.mem_cons_self _ _))
    have hbounds : boundsForNumberLike ops s padFrac integerLike =
        (if integerLike then
          [((⌊listMin (h :: t) -
              padSpec padFrac (listMin (h :: t)) (listMax (h :: t))⌋ : Int) : ℚ),
           ((⌈listMax (h :: t) +
              padSpec padFrac (listMin (h :: t)) (listMax (h :: t))⌉ : Int) : ℚ)]
         else
          [listMin (h :: t) -
             padSpec padFrac (listMin (h :: t)) (listMax (h :: t)),
           listMax (h :: t) +
             padSpec padFrac (listMin (h :: t)) (listMax (h :: t))]) := by
      unfold boundsForNumberLike
      rw [hcons]
      simp only [padSpec, sub_pos, listMin, listMax]
    rw [hcons]
    refine ⟨⟨hminmem, hmaxmem, fun v hv => ⟨hminle v hv, hmaxge v hv⟩⟩,
      hbounds, ?_⟩
    intro hp lo hi heq v hv
    have hpad : 0 ≤ padSpec padFrac (listMin (h :: t)) (listMax (h :: t)) :=
      padSpec_nonneg padFrac _ _ hp hminmax
    rw [hbounds] at heq
    cases integerLike with
    | false =>
        simp only [if_neg Bool.false_ne_true, Bool.false_eq_true,
          if_false] at heq
        injection heq with h1 heq
        injection heq with h2 _
        subst h1
        subst h2
        constructor
        · linarith [hminle v hv]
        · linarith [hmaxge v hv]
    | true =>
        simp only [if_true] at heq
        injection heq with h1 heq
        injection heq with h2 _
        subst h1
        subst h2
        constructor
        · calc ((⌊listMin (h :: t) -
              padSpec padFrac (listMin (h :: t)) (listMax (h :: t))⌋ : Int) : ℚ)
              ≤ listMin (h :: t) -
                padSpec padFrac (listMin (h :: t)) (listMax (h :: t)) :=
                Int.floor_le _
            _ ≤ v := by linarith [hminle v hv]
        · calc v ≤ listMax (h :: t) := hmaxge v hv
            _ ≤ listMax (h :: t) +
                padSpec padFrac (listMin (h :: t)) (listMax (h :: t)) := by
                linarith
            _ ≤ ((⌈listMax (h :: t) +
                padSpec padFrac (listMin (h :: t)) (listMax (h :: t))⌉ : Int) : ℚ) :=
                Int.le_ceil _

/-- Witness for C8 on the spec's scenario-3 values with zero padding:
exact integer bounds containing every value. -/
theorem bounds_for_number_like_spec_witness :
    boundsForNumberLike demoOps
      ⟨PDtype.int64, [Cell.i 50000, Cell.i 60000, Cell.i 75000]⟩ 0 true =
      [50000, 75000] ∧
    (50000 : ℚ) ≤ 50000 ∧ (75000 : ℚ) ≤ 75000 := by
  have h := bounds_for_number_like_spec demoOps
    ⟨PDtype.int64, [Cell.i 50000, Cell.i 60000, Cell.i 75000]⟩ 0 true
  have h2 := h.2 (by decide)
  have hb : boundsForNumberLike demoOps
      ⟨PDtype.int64, [Cell.i 50000, Cell.i 60000, Cell.i 75000]⟩ 0 true =
      [50000, 75000] := by
    rw [h2.2.1]
    decide
  have hc := h2.2.2 (le_refl 0) 50000 75000 hb 50000 (by decide)
  have hd := h2.2.2 (le_refl 0) 50000 75000 hb 75000 (by decide)
  exact ⟨hb, hc.1, hd.2⟩

/-- Counterexample to C8 as stated: with a negative `pad_frac` the
returned pair violates `lo ≤ min` (and `hi ≥ max`): values `[0, 10]` with
`pad_frac = -1` give bounds `[10, 0]`. -/
theorem bounds_negative_pad_counterexample :
    boundsForNumberLike demoOps ⟨PDtype.int64, [Cell.i 0, Cell.i 10]⟩
      (-1) false = [10, 0] ∧
    ¬((10 : ℚ) ≤ 0) := by
  refine ⟨by decide, by decide⟩

/-! ## Renderer lemmas -/

theorem strAppend_right_cancel {a b s : String} (h : a ++ s = b ++ s) :
    a = b := by
  have h2 : (a ++ s).data = (b ++ s).data := by rw [h]
  rw [String.data_append, String.data_append] at h2
  have h3 := List.append_cancel_right h2
  cases a
  cases b
  exact congrArg String.mk h3

theorem strNe_self_append (s : String) : s ≠ s ++ "__rendered" := by
  intro h
  have hl := congrArg String.length h
  rw [String.length_append] at hl
  simp at hl
  exact absurd hl (by decide)

theorem renderStep_other (ops : PandasOps) (keep : Bool)
    (tbl : List (String × List Cell)) (e : String × JTree) (n : String)
    (h1 : n ≠ e.1) (h2 : keep = true → n ≠ e.1 ++ "__rendered") :
    dictGet (renderStep ops keep tbl e) n = dictGet tbl n := by
  unfold renderStep
  by_cases hh : dictHas tbl e.1
  · simp only [hh, Bool.not_true, Bool.false_eq_true, if_false]
    cases keep with
    | true =>
        simp only [if_true]
        exact dictGet_dictSet_ne tbl (e.1 ++ "__rendered") n _ (h2 rfl)
    | false =>
        simp only [Bool.false_eq_true, if_false]
        exact dictGet_dictSet_ne tbl e.1 n _ h1
  · simp only [Bool.not_eq_true] at hh
    simp [hh]

theorem renderFold_other (ops : PandasOps) (keep : Bool)
    (ds : List (String × JTree)) :
    ∀ (tbl : List (String × List Cell)) (n : String),
    (∀ e ∈ ds, n ≠ e.1 ∧ (keep = true → n ≠ e.1 ++ "__rendered")) →
    dictGet (ds.foldl (renderStep ops keep) tbl) n = dictGet tbl n := by
  induction ds with
  | nil => intro tbl n _; rfl
  | cons e ds' ih =>
      intro tbl n hcond
      simp only [List.foldl_cons]
      rw [ih _ n (fun e' he' => hcond e' (List.mem_cons_of_mem _ he'))]
      exact renderStep_other ops keep tbl e n
        (hcond e (List.mem_cons_self _ _)).1
        (hcond e (List.mem_cons_self _ _)).2

theorem renderFold_skip (ops : PandasOps) (keep : Bool)
    (ds : List (String × JTree)) :
    ∀ tbl : List (String × List Cell),
    (∀ e ∈ ds, dictHas tbl e.1 = false) →
    ds.foldl (renderStep ops keep) tbl = tbl := by
  induction ds with
  | nil => intro tbl _; rfl
  | cons e ds' ih =>
      intro tbl hcond
      have hstep : renderStep ops keep tbl e = tbl := by
        unfold renderStep
        simp [hcond e (List.mem_cons_self _ _)]
      simp only [List.foldl_cons, hstep]
      exact ih tbl (fun e' he' => hcond e' (List.mem_cons_of_mem _ he'))

theorem renderFold_overwrite (ops : PandasOps)
    (ds : List (String × JTree)) :
    ∀ (tbl : List (String × List Cell)) (col : String) (meta : JTree)
      (cells : List Cell),
    (col, meta) ∈ ds →
    (ds.map Prod.fst).Nodup →
    dictGet tbl col = some cells →
    dictGet (ds.foldl (renderStep ops false) tbl) col =
      some (cells.map (renderCellWith ops (renderFmtFor meta))) := by
  induction ds with
  | nil =>
      intro tbl col meta cells hmem
      simp at hmem
  | cons e ds' ih =>
      intro tbl col meta cells hmem hnd hcells
      obtain ⟨ecol, emeta⟩ := e
      simp only [List.map_cons, List.nodup_cons] at hnd
      simp only [List.foldl_cons]
      rcases List.mem_cons.mp hmem with heq | hmem'
      · injection heq with hcq hmq
        subst hcq
        subst hmq
        have hstep : renderStep ops false tbl (col, meta) =
            dictSet tbl col
              (cells.map (renderCellWith ops (renderFmtFor meta))) := by
          unfold renderStep
          simp [dictHas, hcells]
        rw [hstep, renderFold_other ops false ds' _ col ?hc,
          dictGet_dictSet_self]
        case hc =>
          intro e' he'
          refine ⟨fun hcc => hnd.1 ?_, by simp⟩
          rw [hcc]
          exact List.mem_map.mpr ⟨e', he', rfl⟩
      · have hcolmem : col ∈ ds'.map Prod.fst :=
          List.mem_map.mpr ⟨(col, meta), hmem', rfl⟩
        have hne : col ≠ ecol := fun hcc => hnd.1 (hcc ▸ hcolmem)
        have hkeep : dictGet (renderStep ops false tbl (ecol, emeta)) col =
            some cells := by
          rw [renderStep_other ops false tbl (ecol, emeta) col hne
            (by simp)]
          exact hcells
        exact ih _ col meta cells hmem' hnd.2 hkeep

theorem renderFold_keep (ops : PandasOps) (ds : List (String × JTree)) :
    ∀ (tbl : List (String × List Cell)) (col : String) (meta : JTree)
      (cells : List Cell),
    (col, meta) ∈ ds →
    (ds.map Prod.fst).Nodup →
    (∀ e ∈ ds, ∀ e' ∈ ds, e.1 ++ "__rendered" ≠ e'.1) →
    dictGet tbl col = some cells →
    dictGet (ds.foldl (renderStep ops true) tbl) col = some cells ∧
    dictGet (ds.foldl (renderStep ops true) tbl) (col ++ "__rendered") =
      some (cells.map (renderCellWith ops (renderFmtFor meta))) := by
  induction ds with
  | nil =>
      intro tbl col meta cells hmem
      simp at hmem
  | cons e ds' ih =>
      intro tbl col meta cells hmem hnd hsib hcells
      obtain ⟨ecol, emeta⟩ := e
      simp only [List.map_cons, List.nodup_cons] at hnd
      simp only [List.foldl_cons]
      rcases List.mem_cons.mp hmem with heq | hmem'
      · injection heq with hcq hmq
        subst hcq
        subst hmq
        have hstep : renderStep ops true tbl (col, meta) =
            dictSet tbl (col ++ "__rendered")
              (cells.map (renderCellWith ops (renderFmtFor meta))) := by
          unfold renderStep
          simp [dictHas, hcells]
        rw [hstep]
        constructor
        · rw [renderFold_other ops true ds' _ col ?hc1,
            dictGet_dictSet_ne tbl (col ++ "__rendered") col _
              (strNe_self_append col)]
          · exact hcells
          case hc1 =>
            intro e' he'
            constructor
            · exact fun hcc => hnd.1 (hcc ▸ List.mem_map.mpr ⟨e', he', rfl⟩)
            · intro _
              have := hsib e' (List.mem_cons_of_mem _ he') (col, meta)
                (List.mem_cons_self _ _)
              exact fun hcc => this hcc.symm
        · rw [renderFold_other ops true ds' _ (col ++ "__rendered") ?hc2,
            dictGet_dictSet_self]
          case hc2 =>
            intro e' he'
            constructor
            · exact hsib (col, meta) (List.mem_cons_self _ _) e'
                (List.mem_cons_of_mem _ he')
            · intro _ hcc
              exact hnd.1 ((strAppend_right_cancel hcc) ▸
                List.mem_map.mpr ⟨e', he', rfl⟩)
      · have hcolmem : col ∈ ds'.map Prod.fst :=
          List.mem_map.mpr ⟨(col, meta), hmem', rfl⟩
        have hne : col ≠ ecol := fun hcc => hnd.1 (hcc ▸ hcolmem)
        have hsibcol : col ≠ ecol ++ "__rendered" := by
          have := hsib (ecol, emeta) (List.mem_cons_self _ _) (col, meta)
            (List.mem_cons_of_mem _ hmem')
          exact fun hcc => this hcc.symm
        have hkeep : dictGet (renderStep ops true tbl (ecol, emeta)) col =
            some cells := by
          rw [renderStep_other ops true tbl (ecol, emeta) col hne
            (fun _ => hsibcol)]
          exact hcells
        exact ih _ col meta cells hmem' hnd.2
          (fun a ha b hb => hsib a (List.mem_cons_of_mem _ ha) b
            (List.mem_cons_of_mem _ hb)) hkeep

/-- C9: the renderer processes exactly the `datetime_spec` entries whose
column is present in the table: with no usable `datetime_spec` it exits
cleanly without writing (a no-op, not an error); columns named by no
entry are untouched; entries whose column is absent change nothing; a
present column is overwritten in place with its numeric values
reinterpreted as epoch-ns and formatted with the stored pattern — or,
with keep-original, written to the `<col>__rendered` sibling while the
original column is unchanged; originally-missing values stay missing,
and a stored non-blank `output_format` is the pattern used. -/
theorem render_datetime_run_spec (ops : PandasOps) :
    (∀ fs df keep, dictGet fs "datetime_spec" = none →
       renderDatetimeRun ops (.obj fs) df keep = none) ∧
    (∀ fs df keep, dictGet fs "datetime_spec" = some (.obj []) →
       renderDatetimeRun ops (.obj fs) df keep = none) ∧
    (∀ fs ds df keep out,
       dictGet fs "datetime_spec" = some (.obj ds) →
       renderDatetimeRun ops (.obj fs) df keep = some out →
       (∀ n, (∀ e ∈ ds, n ≠ e.1 ∧ (keep = true → n ≠ e.1 ++ "__rendered")) →
          dictGet out n = dictGet df n) ∧
       ((∀ e ∈ ds, dictHas df e.1 = false) → out = df) ∧
       (keep = false → (ds.map Prod.fst).Nodup →
          ∀ col meta cells, (col, meta) ∈ ds → dictGet df col = some cells →
            dictGet out col =
              some (cells.map (renderCellWith ops (renderFmtFor meta)))) ∧
       (keep = true → (ds.map Prod.fst).Nodup →
          (∀ e ∈ ds, ∀ e' ∈ ds, e.1 ++ "__rendered" ≠ e'.1) →
          ∀ col meta cells, (col, meta) ∈ ds → dictGet df col = some cells →
            dictGet out col = some cells ∧
            dictGet out (col ++ "__rendered") =
              some (cells.map (renderCellWith ops (renderFmtFor meta))))) ∧
    (∀ fmt, renderCellWith ops fmt Cell.na = Cell.na) ∧
    (∀ f, strTrim f ≠ "" →
       renderFmtFor (.obj [("output_format", .str f)]) = f) := by
  refine ⟨?_, ?_, ?_, ?_, ?_⟩
  · intro fs df keep hds
    simp [renderDatetimeRun, hds]
  · intro fs df keep hds
    simp [renderDatetimeRun, hds]
  · intro fs ds df keep out hds hout
    have hdsne : ds ≠ [] := by
      intro hnil
      subst hnil
      simp [renderDatetimeRun, hds] at hout
    have hout2 : out = ds.foldl (renderStep ops keep) df := by
      unfold renderDatetimeRun at hout
      simp only [hds] at hout
      simp only [List.isEmpty_eq_true, hdsne, if_false] at hout
      injection hout with hout
      exact hout.symm
    subst hout2
    refine ⟨?_, ?_, ?_, ?_⟩
    · intro n hcond
      exact renderFold_other ops keep ds df n hcond
    · intro habs
      exact renderFold_skip ops keep ds df habs
    · intro hk hnd col meta cells hmem hcells
      subst hk
      exact renderFold_overwrite ops ds df col meta cells hmem hnd hcells
    · intro hk hnd hsib col meta cells hmem hcells
      subst hk
      exact renderFold_keep ops ds df col meta cells hmem hnd hsib hcells
  · intro fmt
    rfl
  · intro f hf
    simp [renderFmtFor, dictGet, hf]

/-- Witness for C9 on a concrete schema and table: the `ts` column is
rendered to its sibling with the stored pattern, missing stays missing,
the original column and the unrelated column are untouched. -/
theorem render_datetime_run_spec_witness :
    dictGet ((renderDatetimeRun demoOps rdrSchema rdrTable true).getD [])
      "ts" = some [Cell.i 0, Cell.na] ∧
    dictGet ((renderDatetimeRun demoOps rdrSchema rdrTable true).getD [])
      "ts__rendered" =
      some [Cell.s "%Y-%m-%d#0", Cell.na] ∧
    dictGet ((renderDatetimeRun demoOps rdrSchema rdrTable true).getD [])
      "other" = some [Cell.s "x", Cell.s "y"] := by
  have h := (render_datetime_run_spec demoOps).2.2.1
    [("datetime_spec", .obj
      [("ts", .obj [("storage", JTree.str "epoch_ns"),
                    ("output_format", JTree.str "%Y-%m-%d")])])]
    [("ts", .obj [("storage", JTree.str "epoch_ns"),
                  ("output_format", JTree.str "%Y-%m-%d")])]
    rdrTable true
    ((renderDatetimeRun demoOps rdrSchema rdrTable true).getD []) rfl rfl
  have hk := h.2.2.2 rfl (by decide) (by decide) "ts"
    (.obj [("storage", JTree.str "epoch_ns"),
           ("output_format", JTree.str "%Y-%m-%d")])
    [Cell.i 0, Cell.na] (by simp) rfl
  have ho := h.1 "other" (by decide)
  refine ⟨hk.1, ?_, by rw [ho]; rfl⟩
  have hx := hk.2
  rw [show ("ts" ++ "__rendered" : String) = "ts__rendered" from rfl] at hx
  rw [hx]
  rfl

/-! ## Basic heap lemmas -/

theorem memGet_memSet_self (m : List (Addr × HObj)) (a : Addr) (o : HObj) :
    memGet (memSet m a o) a = some o := by
  induction m with
  | nil => simp [memSet, memGet]
  | cons p rest ih =>
      by_cases h : p.1 = a
      · simp [memSet, h, memGet]
      · simp [memSet, h, memGet, ih]

theorem memGet_memSet_ne (m : List (Addr × HObj)) (a a2 : Addr) (o : HObj)
    (h : a2 ≠ a) : memGet (memSet m a o) a2 = memGet m a2 := by
  have hne : ¬(a = a2) := fun hh => h hh.symm
  induction m with
  | nil => simp [memSet, memGet, hne]
  | cons p rest ih =>
      by_cases h1 : p.1 = a
      · simp [memSet, memGet, h1, hne]
      · simp [memSet, memGet, h1, ih]

theorem store_get_set_self (σ : Store) (a : Addr) (o : HObj) :
    (σ.set a o).get a = some o := memGet_memSet_self σ.mem a o

theorem store_get_set_ne (σ : Store) (a a2 : Addr) (o : HObj) (h : a2 ≠ a) :
    (σ.set a o).get a2 = σ.get a2 := memGet_memSet_ne σ.mem a a2 o h

theorem store_get_alloc_self (σ : Store) (o : HObj) :
    ((σ.alloc o).1).get σ.next = some o := by
  simp [Store.alloc, Store.get, memGet]

theorem store_get_alloc_ne (σ : Store) (o : HObj) (a : Addr)
    (h : a ≠ σ.next) : ((σ.alloc o).1).get a = σ.get a := by
  have hne : ¬(σ.next = a) := fun hh => h hh.symm
  simp [Store.alloc, Store.get, memGet, hne]

theorem memGet_mem (m : List (Addr × HObj)) (a : Addr) (o : HObj)
    (h : memGet m a = some o) : (a, o) ∈ m := by
  induction m with
  | nil => simp [memGet] at h
  | cons p rest ih =>
      by_cases h1 : p.1 = a
      · simp [memGet, h1] at h
        exact List.mem_cons.2 (Or.inl (by rw [← h1, ← h]))
      · simp [memGet, h1] at h
        exact List.mem_cons_of_mem p (ih h)

theorem store_get_lt_next (σ : Store) (hWF : σ.WF) (a : Addr) (o : HObj)
    (h : σ.get a = some o) : a < σ.next :=
  (hWF (a, o) (memGet_mem σ.mem a o h)).1

theorem store_get_refsLt (σ : Store) (hWF : σ.WF) (a : Addr) (o : HObj)
    (h : σ.get a = some o) : hobjRefsLt σ.next o :=
  (hWF (a, o) (memGet_mem σ.mem a o h)).2

theorem store_get_none_of_ge (σ : Store) (hWF : σ.WF) (a : Addr)
    (h : σ.next ≤ a) : σ.get a = none := by
  cases hg : σ.get a with
  | none => rfl
  | some o => exact absurd (store_get_lt_next σ hWF a o hg) (Nat.not_lt.mpr h)

theorem hvalRefLt_mono {m n : Addr} (h : m ≤ n) (v : HVal)
    (hv : hvalRefLt m v) : hvalRefLt n v := by
  cases v <;> try trivial
  exact Nat.lt_of_lt_of_le hv h

theorem hobjRefsLt_mono {m n : Addr} (h : m ≤ n) (o : HObj)
    (ho : hobjRefsLt m o) : hobjRefsLt n o := by
  cases o with
  | dict fs => exact fun p hp => hvalRefLt_mono h p.2 (ho p hp)
  | arr vs => exact fun v hv => hvalRefLt_mono h v (ho v hv)

theorem hobjRefsGe_anti {m n : Addr} (h : m ≤ n) (o : HObj)
    (ho : hobjRefsGe n o) : hobjRefsGe m o := by
  cases o with
  | dict fs => exact fun p hp a ha => le_trans h (ho p hp a ha)
  | arr vs => exact fun v hv a ha => le_trans h (ho v hv a ha)

theorem memSet_mem (m : List (Addr × HObj)) (a : Addr) (o : HObj)
    (p : Addr × HObj) (h : p ∈ memSet m a o) : p = (a, o) ∨ p ∈ m := by
  induction m with
  | nil => simpa [memSet] using h
  | cons q rest ih =>
      by_cases h1 : q.1 = a
      · simp [memSet, h1] at h
        rcases h with h | h
        · exact Or.inl h
        · exact Or.inr (List.mem_cons_of_mem q h)
      · simp [memSet, h1] at h
        rcases h with h | h
        · exact Or.inr (h ▸ List.mem_cons_self q rest)
        · rcases ih h with h2 | h2
          · exact Or.inl h2
          · exact Or.inr (List.mem_cons_of_mem q h2)

theorem store_WF_set (σ : Store) (hWF : σ.WF) (a : Addr) (o : HObj)
    (ha : a < σ.next) (ho : hobjRefsLt σ.next o) : (σ.set a o).WF := by
  intro p hp
  rcases memSet_mem σ.mem a o p hp with h | h
  · rw [h]
    exact ⟨ha, ho⟩
  · exact hWF p h

theorem store_WF_alloc (σ : Store) (hWF : σ.WF) (o : HObj)
    (ho : hobjRefsLt (σ.next + 1) o) : ((σ.alloc o).1).WF := by
  intro p hp
  have hp2 : p ∈ (σ.next, o) :: σ.mem := hp
  rcases List.mem_cons.1 hp2 with h | h
  · rw [h]
    exact ⟨Nat.lt_succ_self _, ho⟩
  · obtain ⟨h1, h2⟩ := hWF p h
    exact ⟨Nat.lt_succ_of_lt h1, hobjRefsLt_mono (Nat.le_succ _) p.2 h2⟩

theorem ext_refl (σ : Store) : σ.Ext σ := ⟨le_refl _, fun _ _ => rfl⟩

theorem ext_trans {σ1 σ2 σ3 : Store} (h12 : σ1.Ext σ2) (h23 : σ2.Ext σ3) :
    σ1.Ext σ3 :=
  ⟨le_trans h12.1 h23.1, fun a ha => by
    rw [h23.2 a (lt_of_lt_of_le ha h12.1), h12.2 a ha]⟩

theorem ext_alloc (σ : Store) (o : HObj) : σ.Ext (σ.alloc o).1 :=
  ⟨Nat.le_succ _, fun a ha => store_get_alloc_ne σ o a (Nat.ne_of_lt ha)⟩

theorem ext_set (σ : Store) (a : Addr) (o : HObj) (h : σ.next ≤ a) :
    σ.Ext (σ.set a o) :=
  ⟨le_refl _, fun a2 ha2 =>
    store_get_set_ne σ a a2 o (Nat.ne_of_lt (lt_of_lt_of_le ha2 h))⟩

theorem newPart_refl (σ : Store) (hWF : σ.WF) : newPart σ σ := by
  intro a o ha h
  rw [store_get_none_of_ge σ hWF a ha] at h
  exact Option.noConfusion h

theorem newPart_trans {σ1 σ2 σ3 : Store} (h12e : σ1.Ext σ2)
    (h23e : σ2.Ext σ3) (h12 : newPart σ1 σ2) (h23 : newPart σ2 σ3) :
    newPart σ1 σ3 := by
  intro a o ha h
  by_cases h2 : a < σ2.next
  · rw [h23e.2 a h2] at h
    exact h12 a o ha h
  · obtain ⟨hge, hlt⟩ := h23 a o (Nat.not_lt.mp h2) h
    exact ⟨hobjRefsGe_anti h12e.1 o hge, hlt⟩

theorem WF_closedBelow (σ : Store) (hWF : σ.WF) : σ.ClosedBelow σ.next :=
  fun a o h _ => store_get_refsLt σ hWF a o h

/-! ## Reification only looks at the part of the heap it reaches -/

theorem reifyFieldsWith_congr (g g2 : HVal → Option JTree) (P : HVal → Prop)
    (h : ∀ v, P v → g v = g2 v) :
    ∀ fs : List (String × HVal), (∀ p ∈ fs, P p.2) →
      reifyFieldsWith g fs = reifyFieldsWith g2 fs := by
  intro fs
  induction fs with
  | nil => intro _; rfl
  | cons p rest ih =>
      intro hfs
      obtain ⟨k, v⟩ := p
      have h1 := h v (hfs (k, v) (List.mem_cons_self _ _))
      have h2 := ih fun q hq => hfs q (List.mem_cons_of_mem _ hq)
      simp [reifyFieldsWith, h1, h2]

theorem reifyItemsWith_congr (g g2 : HVal → Option JTree) (P : HVal → Prop)
    (h : ∀ v, P v → g v = g2 v) :
    ∀ vs : List HVal, (∀ v ∈ vs, P v) →
      reifyItemsWith g vs = reifyItemsWith g2 vs := by
  intro vs
  induction vs with
  | nil => intro _; rfl
  | cons v rest ih =>
      intro hvs
      have h1 := h v (hvs v (List.mem_cons_self _ _))
      have h2 := ih fun w hw => hvs w (List.mem_cons_of_mem _ hw)
      simp [reifyItemsWith, h1, h2]

/-- Two heaps that agree below `n` reify values whose references lie
below `n` identically, provided the first heap is closed below `n`. -/
theorem reify_congr (f : Nat) : ∀ (σ σ2 : Store) (n : Addr),
    storeAgreeBelow n σ σ2 → σ.ClosedBelow n →
    ∀ v, hvalRefLt n v → reify f σ2 v = reify f σ v := by
  induction f with
  | zero =>
      intro σ σ2 n _ _ v _
      cases v <;> rfl
  | succ f ihf =>
      intro σ σ2 n hag hcl v hvlt
      cases v with
      | null => rfl
      | b w => rfl
      | num q => rfl
      | str s => rfl
      | ref a =>
          have ha : a < n := hvlt
          have hga : σ2.get a = σ.get a := hag a ha
          cases hg : σ.get a with
          | none => simp [reify, hga, hg]
          | some o =>
              have hrefs := hcl a o hg ha
              cases o with
              | dict fs =>
                  have hF := reifyFieldsWith_congr (reify f σ2) (reify f σ)
                    (hvalRefLt n) (ihf σ σ2 n hag hcl) fs
                    (fun p hp => hrefs p hp)
                  simp [reify, hga, hg, hF]
              | arr vs =>
                  have hI := reifyItemsWith_congr (reify f σ2) (reify f σ)
                    (hvalRefLt n) (ihf σ σ2 n hag hcl) vs
                    (fun w hw => hrefs w hw)
                  simp [reify, hga, hg, hI]

/-! ## What a deep copy does to the heap -/

theorem dcValOk_prim (σ : Store) (hWF : σ.WF) (v2 : HVal)
    (hv2 : ∀ a, v2 ≠ HVal.ref a) :
    σ.WF ∧ σ.Ext σ ∧
    (∀ a, v2 = HVal.ref a → σ.next ≤ a ∧ a + 1 = σ.next) ∧ newPart σ σ :=
  ⟨hWF, ext_refl σ, fun a ha => absurd ha (hv2 a), newPart_refl σ hWF⟩

theorem deepcopyFieldsWith_spec (g : Store → HVal → Option (Store × HVal))
    (hg : dcValOk g) :
    ∀ (fs : List (String × HVal)) (σ σ2 : Store)
      (fs2 : List (String × HVal)), σ.WF →
      deepcopyFieldsWith g σ fs = some (σ2, fs2) →
      σ2.WF ∧ σ.Ext σ2 ∧
      (∀ p ∈ fs2, ∀ a, p.2 = HVal.ref a → σ.next ≤ a ∧ a < σ2.next) ∧
      newPart σ σ2 := by
  intro fs
  induction fs with
  | nil =>
      intro σ σ2 fs2 hWF h
      simp only [deepcopyFieldsWith, Option.some.injEq, Prod.mk.injEq] at h
      obtain ⟨h1, h2⟩ := h
      subst h1
      subst h2
      exact ⟨hWF, ext_refl σ, by simp, newPart_refl σ hWF⟩
  | cons p rest ih =>
      intro σ σ2 fs2 hWF h
      obtain ⟨k, v⟩ := p
      simp only [deepcopyFieldsWith] at h
      cases hv : g σ v with
      | none =>
          simp only [hv] at h
          exact Option.noConfusion h
      | some pr =>
          obtain ⟨σm, v2⟩ := pr
          simp only [hv] at h
          cases hrest : deepcopyFieldsWith g σm rest with
          | none =>
              simp only [hrest] at h
              exact Option.noConfusion h
          | some pr2 =>
              obtain ⟨σ3, rest2⟩ := pr2
              simp only [hrest, Option.some.injEq, Prod.mk.injEq] at h
              obtain ⟨h1, h2⟩ := h
              subst h1
              subst h2
              obtain ⟨hWFm, hExtm, hrefm, hnewm⟩ := hg σ v σm v2 hWF hv
              obtain ⟨hWF3, hExt3, href3, hnew3⟩ := ih σm σ3 rest2 hWFm hrest
              refine ⟨hWF3, ext_trans hExtm hExt3, ?_,
                newPart_trans hExtm hExt3 hnewm hnew3⟩
              intro q hq a ha
              rcases List.mem_cons.1 hq with hq1 | hq1
              · rw [hq1] at ha
                obtain ⟨hge, heq⟩ := hrefm a ha
                exact ⟨hge, lt_of_lt_of_le (heq ▸ Nat.lt_succ_self a) hExt3.1⟩
              · obtain ⟨hge, hlt⟩ := href3 q hq1 a ha
                exact ⟨le_trans hExtm.1 hge, hlt⟩

theorem deepcopyItemsWith_spec (g : Store → HVal → Option (Store × HVal))
    (hg : dcValOk g) :
    ∀ (vs : List HVal) (σ σ2 : Store) (vs2 : List HVal), σ.WF →
      deepcopyItemsWith g σ vs = some (σ2, vs2) →
      σ2.WF ∧ σ.Ext σ2 ∧
      (∀ v ∈ vs2, ∀ a, v = HVal.ref a → σ.next ≤ a ∧ a < σ2.next) ∧
      newPart σ σ2 := by
  intro vs
  induction vs with
  | nil =>
      intro σ σ2 vs2 hWF h
      simp only [deepcopyItemsWith, Option.some.injEq, Prod.mk.injEq] at h
      obtain ⟨h1, h2⟩ := h
      subst h1
      subst h2
      exact ⟨hWF, ext_refl σ, by simp, newPart_refl σ hWF⟩
  | cons v rest ih =>
      intro σ σ2 vs2 hWF h
      simp only [deepcopyItemsWith] at h
      cases hv : g σ v with
      | none =>
          simp only [hv] at h
          exact Option.noConfusion h
      | some pr =>
          obtain ⟨σm, v2⟩ := pr
          simp only [hv] at h
          cases hrest : deepcopyItemsWith g σm rest with
          | none =>
              simp only [hrest] at h
              exact Option.noConfusion h
          | some pr2 =>
              obtain ⟨σ3, rest2⟩ := pr2
              simp only [hrest, Option.some.injEq, Prod.mk.injEq] at h
              obtain ⟨h1, h2⟩ := h
              subst h1
              subst h2
              obtain ⟨hWFm, hExtm, hrefm, hnewm⟩ := hg σ v σm v2 hWF hv
              obtain ⟨hWF3, hExt3, href3, hnew3⟩ := ih σm σ3 rest2 hWFm hrest
              refine ⟨hWF3, ext_trans hExtm hExt3, ?_,
                newPart_trans hExtm hExt3 hnewm hnew3⟩
              intro w hw a ha
              rcases List.mem_cons.1 hw with hw1 | hw1
              · rw [hw1] at ha
                obtain ⟨hge, heq⟩ := hrefm a ha
                exact ⟨hge, lt_of_lt_of_le (heq ▸ Nat.lt_succ_self a) hExt3.1⟩
              · obtain ⟨hge, hlt⟩ := href3 w hw1 a ha
                exact ⟨le_trans hExtm.1 hge, hlt⟩

theorem deepcopyVal_spec : ∀ f : Nat, dcValOk (deepcopyVal f) := by
  intro f
  induction f with
  | zero =>
      intro σ v σ2 v2 hWF h
      cases v
      case ref a => simp [deepcopyVal] at h
      all_goals
        simp only [deepcopyVal, Option.some.injEq, Prod.mk.injEq] at h
        obtain ⟨h1, h2⟩ := h
        subst h1
        subst h2
        exact dcValOk_prim σ hWF _ (fun a ha => nomatch ha)
  | succ f ihf =>
      intro σ v σ2 v2 hWF h
      cases v
      case ref a =>
        simp only [deepcopyVal] at h
        cases hg : σ.get a with
        | none =>
            simp only [hg] at h
            exact Option.noConfusion h
        | some o =>
            cases o with
            | dict fs =>
                cases hfc : deepcopyFieldsWith (deepcopyVal f) σ fs with
                | none =>
                    simp only [hg, hfc] at h
                    exact Option.noConfusion h
                | some pr =>
                    obtain ⟨σf, fs2⟩ := pr
                    simp only [hg, hfc, Option.some.injEq, Prod.mk.injEq] at h
                    obtain ⟨h1, h2⟩ := h
                    subst h1
                    subst h2
                    obtain ⟨hWFf, hExtf, hreff, hnewf⟩ :=
                      deepcopyFieldsWith_spec (deepcopyVal f) ihf fs σ σf fs2
                        hWF hfc
                    refine ⟨?_, ?_, ?_, ?_⟩
                    · apply store_WF_alloc σf hWFf
                      intro p hp
                      cases hc : p.2 with
                      | ref a3 => exact Nat.lt_succ_of_lt (hreff p hp a3 hc).2
                      | null => trivial
                      | b w => trivial
                      | num q => trivial
                      | str s => trivial
                    · exact ext_trans hExtf (ext_alloc σf _)
                    · intro a3 ha3
                      injection ha3 with h3
                      subst h3
                      exact ⟨hExtf.1, rfl⟩
                    · intro a3 o3 ha3 hg3
                      by_cases hlt : a3 < σf.next
                      · rw [store_get_alloc_ne σf _ a3 (Nat.ne_of_lt hlt)]
                          at hg3
                        exact hnewf a3 o3 ha3 hg3
                      · by_cases heq2 : a3 = σf.next
                        · subst heq2
                          rw [store_get_alloc_self σf _] at hg3
                          injection hg3 with h4
                          subst h4
                          constructor
                          · intro p hp a4 ha4
                            exact (hreff p hp a4 ha4).1
                          · intro p hp
                            cases hc : p.2 with
                            | ref a4 => exact (hreff p hp a4 hc).2
                            | null => trivial
                            | b w => trivial
                            | num q => trivial
                            | str s => trivial
                        · rw [store_get_alloc_ne σf _ a3 heq2] at hg3
                          rw [store_get_none_of_ge σf hWFf a3
                            (Nat.not_lt.mp hlt)] at hg3
                          exact Option.noConfusion hg3
            | arr vs =>
                cases hfc : deepcopyItemsWith (deepcopyVal f) σ vs with
                | none =>
                    simp only [hg, hfc] at h
                    exact Option.noConfusion h
                | some pr =>
                    obtain ⟨σf, vs2⟩ := pr
                    simp only [hg, hfc, Option.some.injEq, Prod.mk.injEq] at h
                    obtain ⟨h1, h2⟩ := h
                    subst h1
                    subst h2
                    obtain ⟨hWFf, hExtf, hreff, hnewf⟩ :=
                      deepcopyItemsWith_spec (deepcopyVal f) ihf vs σ σf vs2
                        hWF hfc
                    refine ⟨?_, ?_, ?_, ?_⟩
                    · apply store_WF_alloc σf hWFf
                      intro w hw
                      cases hc : w with
                      | ref a3 => exact Nat.lt_succ_of_lt (hreff w hw a3 hc).2
                      | null => trivial
                      | b wb => trivial
                      | num q => trivial
                      | str s => trivial
                    · exact ext_trans hExtf (ext_alloc σf _)
                    · intro a3 ha3
                      injection ha3 with h3
                      subst h3
                      exact ⟨hExtf.1, rfl⟩
                    · intro a3 o3 ha3 hg3
                      by_cases hlt : a3 < σf.next
                      · rw [store_get_alloc_ne σf _ a3 (Nat.ne_of_lt hlt)]
                          at hg3
                        exact hnewf a3 o3 ha3 hg3
                      · by_cases heq2 : a3 = σf.next
                        · subst heq2
                          rw [store_get_alloc_self σf _] at hg3
                          injection hg3 with h4
                          subst h4
                          constructor
                          · intro w hw a4 ha4
                            exact (hreff w hw a4 ha4).1
                          · intro w hw
                            cases hc : w with
                            | ref a4 => exact (hreff w hw a4 hc).2
                            | null => trivial
                            | b wb => trivial
                            | num q => trivial
                            | str s => trivial
                        · rw [store_get_alloc_ne σf _ a3 heq2] at hg3
                          rw [store_get_none_of_ge σf hWFf a3
                            (Nat.not_lt.mp hlt)] at hg3
                          exact Option.noConfusion hg3
      all_goals
        simp only [deepcopyVal, Option.some.injEq, Prod.mk.injEq] at h
        obtain ⟨h1, h2⟩ := h
        subst h1
        subst h2
        exact dcValOk_prim σ hWF _ (fun a ha => nomatch ha)

/-! ## The mutation phase of the merge preserves its invariant -/

theorem dictSet_mem {α : Type} (m : List (String × α)) (k : String) (v : α)
    (p : String × α) (h : p ∈ dictSet m k v) : p = (k, v) ∨ p ∈ m := by
  induction m with
  | nil => simpa [dictSet] using h
  | cons q rest ih =>
      obtain ⟨k0, v0⟩ := q
      by_cases h1 : k0 = k
      · simp [dictSet, h1] at h
        rcases h with h | h
        · exact Or.inl h
        · exact Or.inr (List.mem_cons_of_mem _ h)
      · simp [dictSet, h1] at h
        rcases h with h | h
        · exact Or.inr (h ▸ List.mem_cons_self _ _)
        · rcases ih h with h2 | h2
          · exact Or.inl h2
          · exact Or.inr (List.mem_cons_of_mem _ h2)

theorem foldlDictSet_mem {α : Type} (rules : List (String × α)) :
    ∀ (cur : List (String × α)) (p : String × α),
      p ∈ rules.foldl (fun c q => dictSet c q.1 q.2) cur →
      p ∈ cur ∨ ∃ q ∈ rules, p.2 = q.2 := by
  induction rules with
  | nil => intro cur p h; exact Or.inl (by simpa using h)
  | cons q rest ih =>
      intro cur p h
      rw [List.foldl_cons] at h
      rcases ih (dictSet cur q.1 q.2) p h with h1 | h1
      · rcases dictSet_mem cur q.1 q.2 p h1 with h2 | h2
        · exact Or.inr ⟨q, List.mem_cons_self _ _, by rw [h2]⟩
        · exact Or.inl h2
      · obtain ⟨q2, hq2, hp2⟩ := h1
        exact Or.inr ⟨q2, List.mem_cons_of_mem _ hq2, hp2⟩

theorem foldlM_option_inv {α β : Type} (P : β → Prop)
    (step : β → α → Option β) :
    ∀ (l : List α) (b b2 : β),
      (∀ c a, a ∈ l → P c → ∀ c2, step c a = some c2 → P c2) →
      P b → List.foldlM step b l = some b2 → P b2 := by
  intro l
  induction l with
  | nil =>
      intro b b2 _ hP h
      simp only [List.foldlM_nil] at h
      simp at h
      exact h ▸ hP
  | cons a l ih =>
      intro b b2 hstep hP h
      rw [List.foldlM_cons] at h
      cases hs : step b a with
      | none => rw [hs] at h; simp at h
      | some c =>
          rw [hs] at h
          simp at h
          exact ih c b2
            (fun c2 a2 ha2 => hstep c2 a2 (List.mem_cons_of_mem _ ha2))
            (hstep b a (List.mem_cons_self _ _) hP c hs) h

theorem storeSetdefault_spec (σ : Store) (d0 : Addr) (k : String)
    (dflt : HObj) (hWF : σ.WF) (fs : List (String × HVal))
    (hd : σ.get d0 = some (.dict fs)) (hdflt : ∀ n, hobjRefsLt n dflt) :
    (storeSetdefault σ d0 k dflt).WF ∧
    σ.next ≤ (storeSetdefault σ d0 k dflt).next ∧
    (∀ a, a < σ.next → a ≠ d0 →
      (storeSetdefault σ d0 k dflt).get a = σ.get a) ∧
    (∃ fs2, (storeSetdefault σ d0 k dflt).get d0 = some (.dict fs2) ∧
      (fs2 = fs ∨ (fs2 = fs ++ [(k, HVal.ref σ.next)] ∧
        (storeSetdefault σ d0 k dflt).get σ.next = some dflt ∧
        σ.next < (storeSetdefault σ d0 k dflt).next))) := by
  have hd0lt : d0 < σ.next := store_get_lt_next σ hWF d0 _ hd
  by_cases hk : dictHas fs k = true
  · have hσ : storeSetdefault σ d0 k dflt = σ := by
      simp [storeSetdefault, hd, hk]
    rw [hσ]
    exact ⟨hWF, le_refl _, fun a _ _ => rfl, fs, hd, Or.inl rfl⟩
  · have hσ : storeSetdefault σ d0 k dflt =
        ((σ.alloc dflt).1).set d0 (.dict (fs ++ [(k, HVal.ref σ.next)])) := by
      simp [storeSetdefault, hd, hk]
      rfl
    rw [hσ]
    have hWFa : ((σ.alloc dflt).1).WF := store_WF_alloc σ hWF dflt (hdflt _)
    have hrefs : hobjRefsLt ((σ.alloc dflt).1).next
        (.dict (fs ++ [(k, HVal.ref σ.next)])) := by
      intro p hp
      rcases List.mem_append.1 hp with h1 | h1
      · exact hvalRefLt_mono (Nat.le_succ _) p.2
          (store_get_refsLt σ hWF d0 _ hd p h1)
      · simp at h1
        rw [h1]
        exact Nat.lt_succ_self _
    refine ⟨store_WF_set _ hWFa d0 _ (Nat.lt_succ_of_lt hd0lt) hrefs,
      Nat.le_succ _, ?_, ?_⟩
    · intro a ha hne
      rw [store_get_set_ne _ d0 a _ hne]
      exact store_get_alloc_ne σ dflt a (Nat.ne_of_lt ha)
    · refine ⟨fs ++ [(k, HVal.ref σ.next)], store_get_set_self _ d0 _,
        Or.inr ⟨rfl, ?_, Nat.lt_succ_self _⟩⟩
      rw [store_get_set_ne _ d0 σ.next _ (ne_of_gt hd0lt)]
      exact store_get_alloc_self σ dflt

theorem mergeColStep_inv (σ0 : Store) (n0 out : Addr)
    (outfs : List (String × HVal)) (σa : Store) (col : String) (rules : HVal)
    (hinv : mergeInv σ0 n0 out outfs σa) :
    ∀ σb, mergeColStep σa out col rules = some σb →
      mergeInv σ0 n0 out outfs σb := by
  intro σb h
  cases rules
  case ref ra =>
    simp only [mergeColStep] at h
    cases hra : σa.get ra with
    | none =>
        simp only [hra] at h
        exact (Option.some.inj h) ▸ hinv
    | some o =>
        cases o with
        | arr vs =>
            simp only [hra] at h
            exact (Option.some.inj h) ▸ hinv
        | dict rulefs =>
            obtain ⟨hWF, hn0, hag, hout, houtlt, hn0out, hfok, hocc⟩ := hinv
            simp only [hra, hout] at h
            cases hcc : dictGet outfs "column_constraints" with
            | none =>
                simp only [hcc] at h
                exact Option.noConfusion h
            | some w =>
                cases w
                case ref outcc =>
                  simp only [hcc] at h
                  have hmem := dictGet_mem outfs "column_constraints" _ hcc
                  obtain ⟨hoccge, hoccne⟩ := hfok _ hmem outcc rfl
                  have hrule_refs : hobjRefsLt σa.next (.dict rulefs) :=
                    store_get_refsLt σa hWF ra _ hra
                  simp only [storeUpdateRule] at h
                  cases hgocc : σa.get outcc with
                  | none =>
                      simp only [hgocc] at h
                      exact Option.noConfusion h
                  | some oc =>
                      cases oc with
                      | arr vs2 =>
                          simp only [hgocc] at h
                          exact Option.noConfusion h
                      | dict ccfs =>
                          simp only [hgocc] at h
                          have hccok := hocc outcc hcc ccfs hgocc
                          have hocclt : outcc < σa.next :=
                            store_get_lt_next σa hWF outcc _ hgocc
                          have hcc_refs : hobjRefsLt σa.next (.dict ccfs) :=
                            store_get_refsLt σa hWF outcc _ hgocc
                          cases hcol : dictGet ccfs col with
                          | some w2 =>
                              cases w2
                              case ref t =>
                                simp only [hcol] at h
                                cases hgt : σa.get t with
                                | none =>
                                    simp only [hgt] at h
                                    exact Option.noConfusion h
                                | some ot =>
                                    cases ot with
                                    | arr vs3 =>
                                        simp only [hgt] at h
                                        exact Option.noConfusion h
                                    | dict tfs =>
                                        simp only [hgt, Option.some.injEq]
                                          at h
                                        have htmem := dictGet_mem ccfs col _
                                          hcol
                                        obtain ⟨htge, htneout, htneocc⟩ :=
                                          hccok _ htmem t rfl
                                        have htlt : t < σa.next :=
                                          store_get_lt_next σa hWF t _ hgt
                                        have ht_refs : hobjRefsLt σa.next
                                            (.dict tfs) :=
                                          store_get_refsLt σa hWF t _ hgt
                                        have hrefsnew : hobjRefsLt σa.next
                                            (.dict (rulefs.foldl
                                              (fun fs q => dictSet fs q.1 q.2)
                                              tfs)) := by
                                          intro p hp
                                          rcases foldlDictSet_mem rulefs tfs p
                                              hp with h1 | h1
                                          · exact ht_refs p h1
                                          · obtain ⟨q, hq, hpq⟩ := h1
                                            rw [hpq]
                                            exact hrule_refs q hq
                                        subst h
                                        refine ⟨store_WF_set σa hWF t _ htlt
                                          hrefsnew, hn0, ?_, ?_, houtlt,
                                          hn0out, hfok, ?_⟩
                                        · intro a2 ha2
                                          rw [store_get_set_ne σa t a2 _
                                            (Nat.ne_of_lt
                                              (lt_of_lt_of_le ha2 htge))]
                                          exact hag a2 ha2
                                        · rw [store_get_set_ne σa t out _
                                            (fun hh => htneout hh.symm)]
                                          exact hout
                                        · intro occ2 hcc2 ccfs2 hg2
                                          rw [hcc] at hcc2
                                          have hocc2 :=
                                            HVal.ref.inj (Option.some.inj hcc2)
                                          subst hocc2
                                          rw [store_get_set_ne σa t outcc _
                                            (fun hh => htneocc hh.symm)] at hg2
                                          rw [hgocc] at hg2
                                          have hccfs2 :=
                                            HObj.dict.inj (Option.some.inj hg2)
                                          exact hccfs2 ▸ hccok
                              all_goals
                                simp only [hcol] at h
                                exact Option.noConfusion h
                          | none =>
                              simp only [hcol, Option.some.injEq] at h
                              have hnewobj_refs : hobjRefsLt (σa.next + 1)
                                  (.dict (rulefs.foldl
                                    (fun fs q => dictSet fs q.1 q.2) [])) := by
                                intro p hp
                                rcases foldlDictSet_mem rulefs [] p hp
                                    with h1 | h1
                                · simp at h1
                                · obtain ⟨q, hq, hpq⟩ := h1
                                  rw [hpq]
                                  exact hvalRefLt_mono (Nat.le_succ _) q.2
                                    (hrule_refs q hq)
                              have hnewfields_refs : hobjRefsLt (σa.next + 1)
                                  (.dict (dictSet ccfs col
                                    (HVal.ref σa.next))) := by
                                intro p hp
                                rcases dictSet_mem ccfs col _ p hp with h1 | h1
                                · rw [h1]
                                  exact Nat.lt_succ_self _
                                · exact hvalRefLt_mono (Nat.le_succ _) p.2
                                    (hcc_refs p h1)
                              subst h
                              have hWFa := store_WF_alloc σa hWF _ hnewobj_refs
                              refine ⟨store_WF_set _ hWFa outcc _
                                (Nat.lt_succ_of_lt hocclt) hnewfields_refs,
                                le_trans hn0 (Nat.le_succ _), ?_, ?_,
                                Nat.lt_succ_of_lt houtlt, hn0out, hfok, ?_⟩
                              · intro a2 ha2
                                rw [store_get_set_ne _ outcc a2 _
                                  (Nat.ne_of_lt (lt_of_lt_of_le ha2 hoccge))]
                                rw [store_get_alloc_ne σa _ a2
                                  (Nat.ne_of_lt (lt_of_lt_of_le ha2 hn0))]
                                exact hag a2 ha2
                              · rw [store_get_set_ne _ outcc out _
                                  (fun hh => hoccne hh.symm)]
                                rw [store_get_alloc_ne σa _ out
                                  (Nat.ne_of_lt houtlt)]
                                exact hout
                              · intro occ2 hcc2 ccfs2 hg2
                                rw [hcc] at hcc2
                                have hocc2 :=
                                  HVal.ref.inj (Option.some.inj hcc2)
                                subst hocc2
                                rw [store_get_set_self] at hg2
                                have hccfs2 :=
                                  HObj.dict.inj (Option.some.inj hg2)
                                rw [← hccfs2]
                                intro p hp r hr
                                rcases dictSet_mem ccfs col _ p hp with h1 | h1
                                · rw [h1] at hr
                                  have h5 := HVal.ref.inj hr
                                  subst h5
                                  exact ⟨hn0, ne_of_gt houtlt,
                                    ne_of_gt hocclt⟩
                                · exact hccok p h1 r hr
                all_goals
                  simp only [hcc] at h
                  exact Option.noConfusion h
  all_goals
    simp only [mergeColStep] at h
    exact (Option.some.inj h) ▸ hinv

theorem mergeCCPhase_inv (σ0 : Store) (n0 out : Addr)
    (outfs : List (String × HVal)) (σ2 : Store) (ufs : List (String × HVal))
    (hinv : mergeInv σ0 n0 out outfs σ2) :
    ∀ σ3, mergeCCPhase σ2 out ufs = some σ3 →
      mergeInv σ0 n0 out outfs σ3 := by
  intro σ3 h
  simp only [mergeCCPhase] at h
  cases hcc : dictGet ufs "column_constraints" with
  | none =>
      simp only [hcc] at h
      exact (Option.some.inj h) ▸ hinv
  | some w =>
      cases w
      case ref ucc =>
        simp only [hcc] at h
        cases hgu : σ2.get ucc with
        | none =>
            simp only [hgu] at h
            exact (Option.some.inj h) ▸ hinv
        | some o =>
            cases o with
            | arr vs =>
                simp only [hgu] at h
                exact (Option.some.inj h) ▸ hinv
            | dict uccfs =>
                simp only [hgu] at h
                exact foldlM_option_inv (mergeInv σ0 n0 out outfs)
                  (fun σa p => mergeColStep σa out p.1 p.2) uccfs σ2 σ3
                  (fun c a _ hc c2 hstep =>
                    mergeColStep_inv σ0 n0 out outfs c a.1 a.2 hc c2 hstep)
                  hinv h
      all_goals
        simp only [hcc] at h
        exact (Option.some.inj h) ▸ hinv

theorem storeExtendList_inv (fuel : Nat) (σ0 : Store) (n0 out : Addr)
    (outfs : List (String × HVal)) (σ : Store) (user : Addr) (k : String)
    (hinv : mergeInv σ0 n0 out outfs σ) :
    ∀ σ4, storeExtendList fuel σ user out k = some σ4 →
      mergeInv σ0 n0 out outfs σ4 := by
  intro σ4 h
  simp only [storeExtendList] at h
  cases hgu : σ.get user with
  | none =>
      simp only [hgu] at h
      exact Option.noConfusion h
  | some o =>
      cases o with
      | arr vs =>
          simp only [hgu] at h
          exact Option.noConfusion h
      | dict ufs =>
          simp only [hgu] at h
          cases hku : dictGet ufs k with
          | none =>
              simp only [hku] at h
              exact (Option.some.inj h) ▸ hinv
          | some w =>
              cases w
              case ref ul =>
                simp only [hku] at h
                cases hgul : σ.get ul with
                | none =>
                    simp only [hgul] at h
                    exact (Option.some.inj h) ▸ hinv
                | some o2 =>
                    cases o2 with
                    | dict fs2 =>
                        simp only [hgul] at h
                        exact (Option.some.inj h) ▸ hinv
                    | arr items0 =>
                        obtain ⟨hWF, hn0, hag, hout, houtlt, hn0out, hfok,
                          hocc⟩ := hinv
                        simp only [hgul] at h
                        cases hdc : deepcopyVal fuel σ (.ref ul) with
                        | none =>
                            simp only [hdc] at h
                            exact Option.noConfusion h
                        | some pr =>
                            obtain ⟨σc, vc⟩ := pr
                            cases vc
                            case ref cl =>
                              simp only [hdc] at h
                              cases hgcl : σc.get cl with
                              | none =>
                                  simp only [hgcl] at h
                                  exact Option.noConfusion h
                              | some oc =>
                                  cases oc with
                                  | dict fs3 =>
                                      simp only [hgcl] at h
                                      exact Option.noConfusion h
                                  | arr citems =>
                                      simp only [hgcl] at h
                                      obtain ⟨hWFc, hExtc, hrefc, hnewc⟩ :=
                                        deepcopyVal_spec fuel σ (.ref ul) σc
                                          (.ref cl) hWF hdc
                                      have hgoutc : σc.get out =
                                          some (.dict outfs) := by
                                        rw [hExtc.2 out houtlt]
                                        exact hout
                                      simp only [hgoutc] at h
                                      cases hko : dictGet outfs k with
                                      | none =>
                                          simp only [hko] at h
                                          exact Option.noConfusion h
                                      | some w2 =>
                                          cases w2
                                          case ref outl =>
                                            simp only [hko] at h
                                            have hmemo :=
                                              dictGet_mem outfs k _ hko
                                            obtain ⟨houtlge, houtlne⟩ :=
                                              hfok _ hmemo outl rfl
                                            have houtllt : outl < σ.next :=
                                              store_get_refsLt σ hWF out _
                                                hout _ hmemo
                                            cases hgoutl : σc.get outl with
                                            | none =>
                                                simp only [hgoutl] at h
                                                exact Option.noConfusion h
                                            | some o3 =>
                                                cases o3 with
                                                | dict fs4 =>
                                                    simp only [hgoutl] at h
                                                    exact Option.noConfusion h
                                                | arr oitems =>
                                                    simp only [hgoutl,
                                                      Option.some.injEq] at h
                                                    subst h
                                                    have hrefs4 : hobjRefsLt
                                                        σc.next
                                                        (.arr (oitems ++
                                                          citems)) := by
                                                      intro v hv
                                                      rcases List.mem_append.1
                                                          hv with h1 | h1
                                                      · exact store_get_refsLt
                                                          σc hWFc outl _
                                                          hgoutl v h1
                                                      · exact store_get_refsLt
                                                          σc hWFc cl _
                                                          hgcl v h1
                                                    refine ⟨store_WF_set σc
                                                      hWFc outl _
                                                      (lt_of_lt_of_le houtllt
                                                        hExtc.1) hrefs4,
                                                      le_trans hn0 hExtc.1,
                                                      ?_, ?_,
                                                      lt_of_lt_of_le houtlt
                                                        hExtc.1,
                                                      hn0out, hfok, ?_⟩
                                                    · intro a2 ha2
                                                      rw [store_get_set_ne σc
                                                        outl a2 _
                                                        (Nat.ne_of_lt
                                                          (lt_of_lt_of_le ha2
                                                            houtlge))]
                                                      rw [hExtc.2 a2
                                                        (lt_of_lt_of_le ha2
                                                          hn0)]
                                                      exact hag a2 ha2
                                                    · rw [store_get_set_ne σc
                                                        outl out _
                                                        (fun hh =>
                                                          houtlne hh.symm)]
                                                      exact hgoutc
                                                    · intro occ hcc2 ccfs hg2
                                                      by_cases hoeq :
                                                          occ = outl
                                                      · subst hoeq
                                                        rw [store_get_set_self]
                                                          at hg2
                                                        simp at hg2
                                                      · rw [store_get_set_ne σc
                                                          outl occ _ hoeq]
                                                          at hg2
                                                        have hocclt2 :
                                                            occ < σ.next :=
                                                          store_get_refsLt σ
                                                            hWF out _ hout _
                                                            (dictGet_mem outfs
                                                              _ _ hcc2)
                                                        rw [hExtc.2 occ
                                                          hocclt2] at hg2
                                                        exact hocc occ hcc2
                                                          ccfs hg2
                                          all_goals
                                            simp only [hko] at h
                                            exact Option.noConfusion h
                            all_goals
                              simp only [hdc] at h
                              exact Option.noConfusion h
              all_goals
                simp only [hku] at h
                exact (Option.some.inj h) ▸ hinv

/-- The frame property of `_merge_constraints` on the heap model: a
successful merge leaves every address of the original heap untouched, so
both input object graphs reify exactly as before. -/
theorem mergeStore_frame (fuel : Nat) (σ : Store) (base user : Addr)
    (σ5 : Store) (out : Addr) (hWF : σ.WF) (huser : user < σ.next)
    (h : mergeConstraintsStore fuel σ base user = some (σ5, out)) :
    (∀ f, reify f σ5 (HVal.ref base) = reify f σ (HVal.ref base)) ∧
    (∀ f, reify f σ5 (HVal.ref user) = reify f σ (HVal.ref user)) := by
  simp only [mergeConstraintsStore] at h
  cases hdc : deepcopyVal fuel σ (.ref base) with
  | none => simp only [hdc] at h; exact Option.noConfusion h
  | some pr =>
      obtain ⟨σ1, v1⟩ := pr
      cases v1
      case ref out1 =>
        simp only [hdc] at h
        cases hg1 : σ1.get out1 with
        | none => simp only [hg1] at h; exact Option.noConfusion h
        | some o1 =>
            cases o1 with
            | arr vs => simp only [hg1] at h; exact Option.noConfusion h
            | dict bfs =>
                simp only [hg1] at h
                have hbase_lt : base < σ.next := by
                  cases fuel with
                  | zero => simp [deepcopyVal] at hdc
                  | succ f =>
                      simp only [deepcopyVal] at hdc
                      cases hgb : σ.get base with
                      | none =>
                          simp only [hgb] at hdc
                          exact Option.noConfusion hdc
                      | some ob => exact store_get_lt_next σ hWF base _ hgb
                obtain ⟨hWF1, hExt1, href1, hnew1⟩ :=
                  deepcopyVal_spec fuel σ (.ref base) σ1 (.ref out1) hWF hdc
                obtain ⟨hout1ge, hout1succ⟩ := href1 out1 rfl
                have hout1lt : out1 < σ1.next :=
                  hout1succ ▸ Nat.lt_succ_self out1
                have hdflt1 : ∀ n, hobjRefsLt n
                    (HObj.dict ([] : List (String × HVal))) := by
                  intro n p hp
                  simp at hp
                have hdflt2 : ∀ n, hobjRefsLt n (HObj.arr ([] : List HVal)) :=
                  by
                  intro n v hv
                  simp at hv
                obtain ⟨hWFs1, hles1, hpres1, fs1, hget1, hcase1⟩ :=
                  storeSetdefault_spec σ1 out1 "column_constraints"
                    (HObj.dict []) hWF1 bfs hg1 hdflt1
                obtain ⟨hWFs2, hles2, hpres2, fs2, hget2, hcase2⟩ :=
                  storeSetdefault_spec _ out1 "cross_column_constraints"
                    (HObj.arr []) hWFs1 fs1 hget1 hdflt2
                obtain ⟨hWFs3, hles3, hpres3, fs3, hget3, hcase3⟩ :=
                  storeSetdefault_spec _ out1 "row_group_constraints"
                    (HObj.arr []) hWFs2 fs2 hget2 hdflt2
                have hbfs := hnew1 out1 _ hout1ge hg1
                have hfokb : fieldsRefOk σ.next out1 bfs := by
                  intro p hp r hr
                  refine ⟨hbfs.1 p hp r hr, ?_⟩
                  have h5 := hbfs.2 p hp
                  rw [hr] at h5
                  exact Nat.ne_of_lt h5
                have hfok1 : fieldsRefOk σ.next out1 fs1 := by
                  rcases hcase1 with h1 | ⟨h1, _, _⟩
                  · rw [h1]
                    exact hfokb
                  · rw [h1]
                    intro p hp r hr
                    rcases List.mem_append.1 hp with h4 | h4
                    · exact hfokb p h4 r hr
                    · simp at h4
                      rw [h4] at hr
                      have h5 := HVal.ref.inj hr
                      subst h5
                      exact ⟨hExt1.1, ne_of_gt hout1lt⟩
                have hfok2 : fieldsRefOk σ.next out1 fs2 := by
                  rcases hcase2 with h1 | ⟨h1, _, _⟩
                  · rw [h1]
                    exact hfok1
                  · rw [h1]
                    intro p hp r hr
                    rcases List.mem_append.1 hp with h4 | h4
                    · exact hfok1 p h4 r hr
                    · simp at h4
                      rw [h4] at hr
                      have h5 := HVal.ref.inj hr
                      subst h5
                      exact ⟨le_trans hExt1.1 hles1,
                        ne_of_gt (lt_of_lt_of_le hout1lt hles1)⟩
                have hfok3 : fieldsRefOk σ.next out1 fs3 := by
                  rcases hcase3 with h1 | ⟨h1, _, _⟩
                  · rw [h1]
                    exact hfok2
                  · rw [h1]
                    intro p hp r hr
                    rcases List.mem_append.1 hp with h4 | h4
                    · exact hfok2 p h4 r hr
                    · simp at h4
                      rw [h4] at hr
                      have h5 := HVal.ref.inj hr
                      subst h5
                      exact ⟨le_trans (le_trans hExt1.1 hles1) hles2,
                        ne_of_gt (lt_of_lt_of_le hout1lt
                          (le_trans hles1 hles2))⟩
                have hag2 : ∀ a, a < σ.next →
                    (storeSetdefault (storeSetdefault (storeSetdefault σ1 out1
                      "column_constraints" (HObj.dict [])) out1
                      "cross_column_constraints" (HObj.arr [])) out1
                      "row_group_constraints" (HObj.arr [])).get a =
                      σ.get a := by
                  intro a ha
                  have hne : a ≠ out1 :=
                    Nat.ne_of_lt (lt_of_lt_of_le ha hout1ge)
                  rw [hpres3 a (lt_of_lt_of_le ha
                    (le_trans (le_trans hExt1.1 hles1) hles2)) hne]
                  rw [hpres2 a (lt_of_lt_of_le ha
                    (le_trans hExt1.1 hles1)) hne]
                  rw [hpres1 a (lt_of_lt_of_le ha hExt1.1) hne]
                  exact hExt1.2 a ha
                have hocc3 : ∀ occ,
                    dictGet fs3 "column_constraints" = some (HVal.ref occ) →
                    ∀ ccfs,
                      (storeSetdefault (storeSetdefault (storeSetdefault σ1
                        out1 "column_constraints" (HObj.dict [])) out1
                        "cross_column_constraints" (HObj.arr [])) out1
                        "row_group_constraints" (HObj.arr [])).get occ =
                        some (.dict ccfs) →
                      ccFieldsRefOk σ.next out1 occ ccfs := by
                  intro occ hcc ccfs hg2
                  have hmem3 := dictGet_mem fs3 _ _ hcc
                  have hmem2 : ("column_constraints", HVal.ref occ) ∈ fs2 := by
                    rcases hcase3 with h3 | ⟨h3, _, _⟩
                    · exact h3 ▸ hmem3
                    · rw [h3] at hmem3
                      rcases List.mem_append.1 hmem3 with h4 | h4
                      · exact h4
                      · simp at h4
                  have hmem1 : ("column_constraints", HVal.ref occ) ∈ fs1 := by
                    rcases hcase2 with h3 | ⟨h3, _, _⟩
                    · exact h3 ▸ hmem2
                    · rw [h3] at hmem2
                      rcases List.mem_append.1 hmem2 with h4 | h4
                      · exact h4
                      · simp at h4
                  have hsrc : ("column_constraints", HVal.ref occ) ∈ bfs ∨
                      (occ = σ1.next ∧
                        (storeSetdefault σ1 out1 "column_constraints"
                          (HObj.dict [])).get σ1.next =
                          some (HObj.dict []) ∧
                        σ1.next < (storeSetdefault σ1 out1
                          "column_constraints" (HObj.dict [])).next) := by
                    rcases hcase1 with h1 | ⟨h1, hg1n, hlt1n⟩
                    · exact Or.inl (h1 ▸ hmem1)
                    · rw [h1] at hmem1
                      rcases List.mem_append.1 hmem1 with h4 | h4
                      · exact Or.inl h4
                      · simp at h4
                        exact Or.inr ⟨h4, hg1n, hlt1n⟩
                  rcases hsrc with hsrc | ⟨hocceq, hg1n, hlt1n⟩
                  · have hoccge : σ.next ≤ occ := hbfs.1 _ hsrc occ rfl
                    have hocclt : occ < out1 := hbfs.2 _ hsrc
                    have hne : occ ≠ out1 := Nat.ne_of_lt hocclt
                    have hlt1 : occ < σ1.next := lt_trans hocclt hout1lt
                    rw [hpres3 occ (lt_of_lt_of_le hlt1
                      (le_trans hles1 hles2)) hne] at hg2
                    rw [hpres2 occ (lt_of_lt_of_le hlt1 hles1) hne] at hg2
                    rw [hpres1 occ hlt1 hne] at hg2
                    obtain ⟨hge, hlt⟩ := hnew1 occ _ hoccge hg2
                    intro p hp r hr
                    refine ⟨hge p hp r hr, ?_, ?_⟩
                    · have h5 := hlt p hp
                      rw [hr] at h5
                      exact Nat.ne_of_lt (lt_trans h5 hocclt)
                    · have h5 := hlt p hp
                      rw [hr] at h5
                      exact Nat.ne_of_lt h5
                  · subst hocceq
                    have hne : σ1.next ≠ out1 := ne_of_gt hout1lt
                    rw [hpres3 σ1.next (lt_of_lt_of_le hlt1n hles2) hne] at hg2
                    rw [hpres2 σ1.next hlt1n hne] at hg2
                    rw [hg1n] at hg2
                    have hnil := HObj.dict.inj (Option.some.inj hg2)
                    rw [← hnil]
                    intro p hp
                    simp at hp
                have hinv2 : mergeInv σ σ.next out1 fs3
                    (storeSetdefault (storeSetdefault (storeSetdefault σ1 out1
                      "column_constraints" (HObj.dict [])) out1
                      "cross_column_constraints" (HObj.arr [])) out1
                      "row_group_constraints" (HObj.arr [])) :=
                  ⟨hWFs3,
                   le_trans (le_trans (le_trans hExt1.1 hles1) hles2) hles3,
                   hag2, hget3,
                   lt_of_lt_of_le hout1lt (le_trans (le_trans hles1 hles2)
                     hles3),
                   hout1ge, hfok3, hocc3⟩
                generalize hgen : storeSetdefault (storeSetdefault
                  (storeSetdefault σ1 out1 "column_constraints"
                    (HObj.dict [])) out1 "cross_column_constraints"
                  (HObj.arr [])) out1 "row_group_constraints"
                  (HObj.arr []) = σ2g at h hinv2
                cases hgu : σ2g.get user with
                | none =>
                    simp only [hgu] at h
                    exact Option.noConfusion h
                | some ou =>
                    cases ou with
                    | arr vs2 =>
                        simp only [hgu] at h
                        exact Option.noConfusion h
                    | dict ufs =>
                        simp only [hgu] at h
                        cases hph : mergeCCPhase σ2g out1 ufs with
                        | none =>
                            simp only [hph] at h
                            exact Option.noConfusion h
                        | some σ3 =>
                            simp only [hph] at h
                            have hinv3 := mergeCCPhase_inv σ σ.next out1 fs3
                              σ2g ufs hinv2 σ3 hph
                            cases hx1 : storeExtendList fuel σ3 user out1
                                "cross_column_constraints" with
                            | none =>
                                simp only [hx1] at h
                                exact Option.noConfusion h
                            | some σ4 =>
                                simp only [hx1] at h
                                have hinv4 := storeExtendList_inv fuel σ
                                  σ.next out1 fs3 σ3 user
                                  "cross_column_constraints" hinv3 σ4 hx1
                                cases hx2 : storeExtendList fuel σ4 user out1
                                    "row_group_constraints" with
                                | none =>
                                    simp only [hx2] at h
                                    exact Option.noConfusion h
                                | some σ5f =>
                                    simp only [hx2, Option.some.injEq,
                                      Prod.mk.injEq] at h
                                    obtain ⟨h1, h2⟩ := h
                                    subst h1
                                    subst h2
                                    have hinv5 := storeExtendList_inv fuel σ
                                      σ.next out1 fs3 σ4 user
                                      "row_group_constraints" hinv4 σ5f hx2
                                    obtain ⟨_, _, hag5, _⟩ := hinv5
                                    constructor
                                    · intro f
                                      exact reify_congr f σ σ5f σ.next hag5
                                        (WF_closedBelow σ hWF)
                                        (HVal.ref base) hbase_lt
                                    · intro f
                                      exact reify_congr f σ σ5f σ.next hag5
                                        (WF_closedBelow σ hWF)
                                        (HVal.ref user) huser
      all_goals
        simp only [hdc] at h
        exact Option.noConfusion h

/-! ## Value-level union and append facts about the merge -/

theorem dictGet_foldl_dictSet {α : Type} (rules : List (String × α)) :
    ∀ (cur : List (String × α)) (k : String), (rules.map Prod.fst).Nodup →
      dictGet (rules.foldl (fun c q => dictSet c q.1 q.2) cur) k =
        match dictGet rules k with
        | some v => some v
        | none => dictGet cur k := by
  induction rules with
  | nil => intro cur k _; rfl
  | cons q rest ih =>
      intro cur k hnd
      obtain ⟨k0, v0⟩ := q
      rw [List.foldl_cons]
      have hnd' := hnd
      rw [List.map_cons] at hnd'
      obtain ⟨hk0, hnd2⟩ := List.nodup_cons.1 hnd'
      rw [ih (dictSet cur k0 v0) k hnd2]
      by_cases hk : k0 = k
      · subst hk
        have hnone : dictGet rest k0 = none :=
          dictGet_eq_none_of_not_mem rest k0 hk0
        rw [hnone]
        simp [dictGet, dictGet_dictSet_self]
      · have hcur : dictGet (dictSet cur k0 v0) k = dictGet cur k :=
          dictGet_dictSet_ne cur k0 k v0 (fun hh => hk hh.symm)
        rw [hcur]
        have hcons : dictGet ((k0, v0) :: rest) k = dictGet rest k := by
          simp [dictGet, hk]
        rw [hcons]

theorem mergePureCC_fold (ufields : List (String × JTree)) :
    ∀ (acc : List (String × List (String × JTree))) (col : String),
      (ufields.map Prod.fst).Nodup →
      dictGet (ufields.foldl mergePureStep acc) col =
        match dictGet ufields col with
        | some (.obj rules) =>
            some (rules.foldl (fun c q => dictSet c q.1 q.2)
              ((dictGet acc col).getD []))
        | some _ => dictGet acc col
        | none => dictGet acc col := by
  induction ufields with
  | nil => intro acc col _; rfl
  | cons p rest ih =>
      intro acc col hnd
      obtain ⟨c0, v0⟩ := p
      rw [List.foldl_cons]
      have hnd' := hnd
      rw [List.map_cons] at hnd'
      obtain ⟨hc0, hnd2⟩ := List.nodup_cons.1 hnd'
      rw [ih (mergePureStep acc (c0, v0)) col hnd2]
      by_cases hc : c0 = col
      · subst hc
        have hnone : dictGet rest c0 = none :=
          dictGet_eq_none_of_not_mem rest c0 hc0
        rw [hnone]
        cases v0 <;> simp [mergePureStep, dictGet, dictGet_dictSet_self]
      · have hacc : dictGet (mergePureStep acc (c0, v0)) col =
            dictGet acc col := by
          cases v0 with
          | obj rules =>
              exact dictGet_dictSet_ne acc c0 col _ (fun hh => hc hh.symm)
          | null => rfl
          | bool b => rfl
          | num q => rfl
          | str s => rfl
          | arr items => rfl
        rw [hacc]
        have hcons : dictGet ((c0, v0) :: rest) col = dictGet rest col := by
          simp [dictGet, hc]
        rw [hcons]

theorem mergePure_cc_lookup (base : Constraints) (user : JTree)
    (ufields : List (String × JTree))
    (hu : jGet user "column_constraints" = some (.obj ufields))
    (hnd : (ufields.map Prod.fst).Nodup) (col : String) :
    dictGet (mergeConstraintsPure base user).column_constraints col =
      match dictGet ufields col with
      | some (.obj rules) =>
          some (rules.foldl (fun c q => dictSet c q.1 q.2)
            ((dictGet base.column_constraints col).getD []))
      | some _ => dictGet base.column_constraints col
      | none => dictGet base.column_constraints col := by
  have hcc : (mergeConstraintsPure base user).column_constraints =
      ufields.foldl mergePureStep base.column_constraints := by
    simp only [mergeConstraintsPure, hu]
    rfl
  rw [hcc]
  exact mergePureCC_fold ufields base.column_constraints col hnd

theorem mergePure_cross (base : Constraints) (user : JTree)
    (xs : List JTree)
    (h : jGet user "cross_column_constraints" = some (.arr xs)) :
    (mergeConstraintsPure base user).cross_column_constraints =
      base.cross_column_constraints ++ xs := by
  simp [mergeConstraintsPure, h]

theorem mergePure_row (base : Constraints) (user : JTree)
    (xs : List JTree)
    (h : jGet user "row_group_constraints" = some (.arr xs)) :
    (mergeConstraintsPure base user).row_group_constraints =
      base.row_group_constraints ++ xs := by
  simp [mergeConstraintsPure, h]

/-- C6: merging user constraints into the generated defaults never
mutates either input.  On the heap model, a successful
`_merge_constraints` run leaves every address of the original heap
untouched, so the base and the user object graphs reify exactly as
before the call (the result coincides with what a pre-merge deep copy
predicts).  On the value model, per-column rule objects are unioned key
by key — user keys are layered over generated keys, generated keys the
user did not mention survive, and columns the user does not mention keep
their generated rules — while user `cross_column_constraints` and
`row_group_constraints` entries are appended after the generated
ones. -/
theorem merge_constraints_frame_and_union :
    (∀ (fuel : Nat) (σ : Store) (base user : Addr) (σ5 : Store)
        (out : Addr), σ.WF → user < σ.next →
        mergeConstraintsStore fuel σ base user = some (σ5, out) →
        (∀ f, reify f σ5 (HVal.ref base) = reify f σ (HVal.ref base)) ∧
        (∀ f, reify f σ5 (HVal.ref user) = reify f σ (HVal.ref user))) ∧
    (∀ (base : Constraints) (user : JTree)
        (ufields : List (String × JTree)),
        jGet user "column_constraints" = some (.obj ufields) →
        (ufields.map Prod.fst).Nodup →
        ∀ col,
          dictGet (mergeConstraintsPure base user).column_constraints col =
            match dictGet ufields col with
            | some (.obj rules) =>
                some (rules.foldl (fun c q => dictSet c q.1 q.2)
                  ((dictGet base.column_constraints col).getD []))
            | some _ => dictGet base.column_constraints col
            | none => dictGet base.column_constraints col) ∧
    (∀ (base : Constraints) (user : JTree)
        (ufields rules : List (String × JTree)) (col : String),
        jGet user "column_constraints" = some (.obj ufields) →
        (ufields.map Prod.fst).Nodup →
        dictGet ufields col = some (.obj rules) →
        (rules.map Prod.fst).Nodup →
        ∀ k,
          dictGet ((dictGet (mergeConstraintsPure
              base user).column_constraints col).getD []) k =
            match dictGet rules k with
            | some v => some v
            | none =>
                dictGet ((dictGet base.column_constraints col).getD []) k) ∧
    (∀ (base : Constraints) (user : JTree) (xs : List JTree),
        jGet user "cross_column_constraints" = some (.arr xs) →
        (mergeConstraintsPure base user).cross_column_constraints =
          base.cross_column_constraints ++ xs) ∧
    (∀ (base : Constraints) (user : JTree) (xs : List JTree),
        jGet user "row_group_constraints" = some (.arr xs) →
        (mergeConstraintsPure base user).row_group_constraints =
          base.row_group_constraints ++ xs) := by
  refine ⟨?_, ?_, ?_, mergePure_cross, mergePure_row⟩
  · intro fuel σ base user σ5 out hWF huser h
    exact mergeStore_frame fuel σ base user σ5 out hWF huser h
  · intro base user ufields hu hnd col
    exact mergePure_cc_lookup base user ufields hu hnd col
  · intro base user ufields rules col hu hnd hcol hndr k
    rw [mergePure_cc_lookup base user ufields hu hnd col, hcol]
    simp only [Option.getD_some]
    rw [dictGet_foldl_dictSet rules
      ((dictGet base.column_constraints col).getD []) k hndr]
    cases dictGet rules k <;> rfl

/-- Witness for C6 on a concrete ten-object heap holding the base and
user documents of `test_merge_constraints`: after a successful merge the
base at address 0 and the user at address 5 reify unchanged, and on the
value model `colA` carries the key-by-key union while the user cross
entry is appended. -/
theorem merge_constraints_frame_and_union_witness :
    reify 40 ((mergeW.getD (sigmaW, 0)).1) (HVal.ref 0) =
      reify 40 sigmaW (HVal.ref 0) ∧
    reify 40 ((mergeW.getD (sigmaW, 0)).1) (HVal.ref 5) =
      reify 40 sigmaW (HVal.ref 5) ∧
    dictGet (mergeConstraintsPure baseW userW).column_constraints "colA" =
      some [("min", JTree.num 0), ("max", JTree.num 10)] ∧
    dictGet ((dictGet (mergeConstraintsPure
        baseW userW).column_constraints "colA").getD []) "max" =
      some (JTree.num 10) ∧
    (mergeConstraintsPure baseW userW).cross_column_constraints =
      [JTree.str "x"] ∧
    (mergeConstraintsPure baseW userW).row_group_constraints = [] := by
  have hA := merge_constraints_frame_and_union.1 40 sigmaW 0 5
    ((mergeW.getD (sigmaW, 0)).1) ((mergeW.getD (sigmaW, 0)).2)
    (by decide) (by decide) rfl
  have hB := merge_constraints_frame_and_union.2.1 baseW userW
    [("colA", .obj [("max", JTree.num 10)])] rfl (by decide) "colA"
  have hB2 := merge_constraints_frame_and_union.2.2.1 baseW userW
    [("colA", .obj [("max", JTree.num 10)])] [("max", JTree.num 10)]
    "colA" rfl (by decide) rfl (by decide) "max"
  have hC := merge_constraints_frame_and_union.2.2.2.1 baseW userW
    [JTree.str "x"] rfl
  have hD := merge_constraints_frame_and_union.2.2.2.2 baseW userW [] rfl
  refine ⟨hA.1 40, hA.2 40, ?_, ?_, ?_, ?_⟩
  · rw [hB]
    rfl
  · rw [hB2]
    rfl
  · rw [hC]
    rfl
  · rw [hD]
    rfl

end SchemaGen
